import Mathlib

/-!
Verification development for the chat-bot repository's message-understanding and
response-selection pipeline (`src/backend/services/nlpService.js` and the pattern
table of `src/backend/routes/chat.js`).

The JavaScript code is shallowly embedded: every function is translated into a
computable Lean definition over `String`/`List Char`, JS numbers carrying scores
become `ℚ`, JS objects used as ordered key/value maps become association lists
that preserve insertion order, and calls into the third-party `natural` /
`compromise` libraries are abstracted as explicit functional parameters
(`LibEnv`), since their code is not part of this repository.
-/

set_option maxRecDepth 10000
set_option maxHeartbeats 1000000

namespace ChatBot

/-! ### JavaScript string primitives -/

/-- `String.prototype.toLowerCase()` for the ASCII texts this code handles. -/
def jsToLower (s : String) : String :=
  ⟨s.data.map Char.toLower⟩

/-- Is `pre` a prefix of `l`? (used to implement substring search). -/
def listPrefix : List Char → List Char → Bool
  | [], _ => true
  | _ :: _, [] => false
  | a :: as, b :: bs => a == b && listPrefix as bs

/-- Does `hay` contain `needle` as a contiguous sublist? -/
def listContainsSub (needle : List Char) : List Char → Bool
  | [] => listPrefix needle []
  | c :: cs => listPrefix needle (c :: cs) || listContainsSub needle cs

/-- `hay.includes(needle)` on the raw (already-lowercased where the JS lowercases)
strings. `"".includes(x)` is false unless `x = ""`, and every string includes `""`,
exactly as in JS. -/
def jsIncludes (hay needle : String) : Bool :=
  listContainsSub needle.data hay.data

/-- Split a character list on maximal runs of characters satisfying `p`,
keeping the empty chunks that JS `String.prototype.split(/[p]+/)` produces at the
boundaries: `"a b"` ↦ `["a","b"]`, `" a"` ↦ `["","a"]`, `"a "` ↦ `["a",""]`,
`""` ↦ `[""]`. A separator character opens a fresh chunk on its left exactly
when it is the last character of its run (i.e. followed by a non-separator or
by the end of the string). -/
def splitRunsAux (p : Char → Bool) : List Char → List (List Char)
  | [] => [[]]
  | c :: cs =>
    let rest := splitRunsAux p cs
    if p c then
      match cs with
      | [] => [] :: rest
      | c2 :: _ => if p c2 then rest else [] :: rest
    else
      match rest with
      | chunk :: more => (c :: chunk) :: more
      | [] => [[c]]

def splitRuns (p : Char → Bool) (s : String) : List String :=
  (splitRunsAux p s.data).map (fun l => ⟨l⟩)

/-- `s.split(/\s+/)`. -/
def jsSplitWs (s : String) : List String :=
  splitRuns Char.isWhitespace s

/-- `s.split(/[.!?]+/)`. -/
def jsSplitSentences (s : String) : List String :=
  splitRuns (fun c => c == '.' || c == '!' || c == '?') s

/-- `list.slice(-n)`: the last `n` elements (the whole list when shorter). -/
def lastN (n : Nat) (l : List α) : List α :=
  l.drop (l.length - n)

/-- A JS regex word character (`\w` = `[A-Za-z0-9_]`). -/
def isWordChar (c : Char) : Bool :=
  c.isAlphanum || c == '_'

/-- The regex test `/^word\b/i.test(message)` for an all-lowercase `word`. -/
def startsWithWordCI (message w : String) : Bool :=
  let m := (jsToLower message).data
  listPrefix w.data m &&
    (match m.drop w.data.length with
     | [] => true
     | c :: _ => !(isWordChar c))

/-! ### Executable exact rationals

The numeric scores of the JS code are embedded as exact fractions. `Frac` is a
non-normalizing fraction type whose operations are plain `Int`/`Nat` arithmetic
(so every score computation evaluates inside the kernel); `Frac.val` interprets
a fraction in `ℚ`, and all order-theoretic reasoning happens through `val`. -/

structure Frac where
  n : Int
  d : Nat
  dpos : 0 < d

/-- The rational value of a fraction. -/
def Frac.val (q : Frac) : ℚ := (q.n : ℚ) / (q.d : ℚ)

/-- Build `n / d`, falling back to `0` for a zero denominator (never used with
one; keeps the constructor total). -/
def frac (n : Int) (d : Nat) : Frac :=
  if h : 0 < d then ⟨n, d, h⟩ else ⟨0, 1, Nat.one_pos⟩

def Frac.ofNat (n : Nat) : Frac := ⟨(n : Int), 1, Nat.one_pos⟩

def Frac.add (a b : Frac) : Frac :=
  ⟨a.n * (b.d : Int) + b.n * (a.d : Int), a.d * b.d, Nat.mul_pos a.dpos b.dpos⟩

def Frac.mul (a b : Frac) : Frac :=
  ⟨a.n * b.n, a.d * b.d, Nat.mul_pos a.dpos b.dpos⟩

/-- Division by a natural number; division by zero yields `0` (which matches the
`0`-valued reading `ℚ` gives `x / 0`; the JS code only divides by positive
counts, apart from `NaN` averages over empty histories whose downstream
comparisons are all false, just as they are for the value `0`). -/
def Frac.divN (a : Frac) (k : Nat) : Frac :=
  if h : 0 < k then ⟨a.n, a.d * k, Nat.mul_pos a.dpos h⟩ else ⟨0, 1, Nat.one_pos⟩

/-- `a <= b` on values (denominators are positive, so cross-multiply). -/
def Frac.ble (a b : Frac) : Bool := decide (a.n * (b.d : Int) ≤ b.n * (a.d : Int))

/-- `a < b` on values. -/
def Frac.blt (a b : Frac) : Bool := decide (a.n * (b.d : Int) < b.n * (a.d : Int))

/-- Value equality (representations may differ). -/
def Frac.beq (a b : Frac) : Bool := decide (a.n * (b.d : Int) = b.n * (a.d : Int))

/-- `Math.min`. -/
def Frac.jsMin (a b : Frac) : Frac := if a.ble b then a else b

/-- The sum of a list of fractions, left-to-right as the JS `+=` loops run. -/
def Frac.lsum (l : List Frac) : Frac := l.foldl Frac.add (Frac.ofNat 0)

instance : DecidableEq Frac := fun a b =>
  decidable_of_iff (a.n = b.n ∧ a.d = b.d) (by cases a; cases b; simp)

/-! ### Insertion-ordered maps and JS-style folds -/

/-- `obj[key]` on an object modelled as an insertion-ordered association list:
the first entry with the given key wins. -/
def alistLookup : List (String × β) → String → Option β
  | [], _ => none
  | e :: es, k => if e.1 == k then some e.2 else alistLookup es k

/-- `obj[key] = (obj[key] || 0) + 1`: bump an existing key in place,
or append a fresh key with value 1. -/
def jsBumpNat (l : List (String × Nat)) (k : String) : List (String × Nat) :=
  if l.any (fun e => e.1 == k) then
    l.map (fun e => if e.1 == k then (e.1, e.2 + 1) else e)
  else l ++ [(k, 1)]

/-- `scores[key] += m` (with `scores[key]` created as `0` first, as the JS does). -/
def jsAddScore (l : List (String × Frac)) (k : String) (m : Frac) :
    List (String × Frac) :=
  if l.any (fun e => e.1 == k) then
    l.map (fun e => if e.1 == k then (e.1, e.2.add m) else e)
  else l ++ [(k, (Frac.ofNat 0).add m)]

/-- The `if (score > bestScore) { best = x }` accumulation loop that several
nlpService functions run over an entries list: strict improvement, so the first
maximum (in iteration order) wins, and `init` survives when nothing beats it. -/
def bestFoldStrict (init : α × Frac) (l : List (α × Frac)) : α × Frac :=
  l.foldl (fun acc x => if acc.2.blt x.2 then x else acc) init

/-- Stable insertion used to model `Array.prototype.sort` (stable per ES2019)
with a descending numeric comparator: an element is inserted after every
already-placed element with a `≥` key. -/
def insertDescBy (f : α → Frac) (x : α) : List α → List α
  | [] => [x]
  | y :: ys => if (f x).ble (f y) then y :: insertDescBy f x ys else x :: y :: ys

/-- `arr.sort((a, b) => f(b) - f(a))`: stable descending sort. Stable-sort output
is uniquely determined by the comparator, so this insertion sort computes exactly
what the JS engine's stable sort returns. -/
def jsSortDescBy (f : α → Frac) (l : List α) : List α :=
  l.foldl (fun acc x => insertDescBy f x acc) []

/-! ### Response scoring (`calculateResponseScore`, nlpService.js lines 834-928) -/

/-- The `commonWords` weight table (lines 840-846), in declaration order. -/
def commonWords : List (String × Frac) :=
  [("the", frac 1 10), ("a", frac 1 10), ("an", frac 1 10), ("and", frac 1 10),
   ("or", frac 1 10), ("but", frac 1 10), ("in", frac 1 10), ("on", frac 1 10),
   ("at", frac 1 10), ("to", frac 1 10), ("for", frac 1 10), ("of", frac 1 10),
   ("with", frac 1 10), ("by", frac 1 10),
   ("is", frac 2 10), ("are", frac 2 10), ("was", frac 2 10),
   ("were", frac 2 10), ("be", frac 2 10), ("been", frac 2 10),
   ("have", frac 2 10), ("has", frac 2 10), ("had", frac 2 10),
   ("do", frac 2 10), ("does", frac 2 10), ("did", frac 2 10),
   ("will", frac 2 10), ("would", frac 2 10), ("could", frac 2 10),
   ("should", frac 2 10), ("may", frac 2 10), ("might", frac 2 10),
   ("can", frac 2 10),
   ("this", frac 3 10), ("that", frac 3 10), ("these", frac 3 10),
   ("those", frac 3 10), ("i", frac 3 10), ("you", frac 3 10),
   ("he", frac 3 10), ("she", frac 3 10), ("it", frac 3 10),
   ("we", frac 3 10), ("they", frac 3 10), ("me", frac 3 10),
   ("him", frac 3 10), ("her", frac 3 10), ("us", frac 3 10),
   ("them", frac 3 10),
   ("what", frac 4 10), ("how", frac 4 10), ("when", frac 4 10),
   ("where", frac 4 10), ("why", frac 4 10), ("who", frac 4 10),
   ("which", frac 4 10)]

/-- The `importantKeywords` weight table (lines 849-864), in declaration order. -/
def importantKeywords : List (String × Frac) :=
  [("loan", frac 2 1), ("borrow", frac 2 1), ("money", frac 2 1),
   ("amount", frac 2 1), ("emi", frac 2 1), ("installment", frac 2 1),
   ("apply", frac 18 10), ("application", frac 18 10), ("process", frac 18 10),
   ("steps", frac 18 10),
   ("documents", frac 18 10), ("papers", frac 18 10), ("kyc", frac 18 10),
   ("pan", frac 18 10), ("aadhaar", frac 18 10), ("bank statement", frac 18 10),
   ("repay", frac 18 10), ("payment", frac 18 10), ("repayment", frac 18 10),
   ("pay", frac 18 10),
   ("interest", frac 18 10), ("rate", frac 18 10), ("charges", frac 18 10),
   ("fees", frac 18 10),
   ("eligible", frac 18 10), ("eligibility", frac 18 10),
   ("qualify", frac 18 10), ("requirements", frac 18 10),
   ("criteria", frac 18 10),
   ("max", frac 18 10), ("maximum", frac 18 10), ("highest", frac 18 10),
   ("min", frac 18 10), ("minimum", frac 18 10), ("lowest", frac 18 10),
   ("salary", frac 18 10), ("income", frac 18 10),
   ("salary requirement", frac 18 10),
   ("reloan", frac 18 10), ("another loan", frac 18 10),
   ("second loan", frac 18 10),
   ("fundobaba", frac 15 10), ("company", frac 15 10), ("about", frac 15 10),
   ("contact", frac 15 10), ("support", frac 15 10), ("help", frac 15 10),
   ("phone", frac 15 10), ("email", frac 15 10),
   ("thank", frac 1 1), ("thanks", frac 1 1), ("appreciate", frac 1 1),
   ("hello", frac 8 10), ("hi", frac 8 10), ("hey", frac 8 10),
   ("good morning", frac 8 10), ("good evening", frac 8 10),
   ("bye", frac 8 10), ("goodbye", frac 8 10), ("see you", frac 8 10)]

/-- One step of the exact word-match pass (lines 880-892): a matched pattern word
adds its `importantKeywords` weight (counting), its `commonWords` weight (not
counting), or the default `1.0` (counting). -/
def wordMatchStep (messageWords : List String) (acc : Frac × Nat) (w : String) :
    Frac × Nat :=
  if messageWords.contains w then
    match alistLookup importantKeywords w with
    | some wt => (acc.1.add wt, acc.2 + 1)
    | none =>
      match alistLookup commonWords w with
      | some wt => (acc.1.add wt, acc.2)
      | none => (acc.1.add (Frac.ofNat 1), acc.2 + 1)
  else acc

/-- The test of the partial-match pass (line 897): either word is a substring of
the other. -/
def subMatchTest (msgWord w : String) : Bool :=
  jsIncludes msgWord w || jsIncludes w msgWord

/-- Contribution of one (pattern word, message word) pair in the partial-match
pass (lines 895-905): 70% of the keyword weight, nothing for common words,
`0.7` for other words. -/
def subMatchStep (w msgWord : String) : Frac :=
  if subMatchTest msgWord w then
    match alistLookup importantKeywords w with
    | some wt => wt.mul (frac 7 10)
    | none =>
      match alistLookup commonWords w with
      | some _ => Frac.ofNat 0
      | none => frac 7 10
  else Frac.ofNat 0

/-- Total partial-match contribution of one pattern word over all message words. -/
def subMatchWordContrib (messageWords : List String) (w : String) : Frac :=
  Frac.lsum (messageWords.map (fun mw => subMatchStep w mw))

/-- The whole partial-match pass over all pattern words. -/
def subMatchPass (messageWords patternWords : List String) : Frac :=
  Frac.lsum (patternWords.map (fun w => subMatchWordContrib messageWords w))

/-- The interrogative words of the question bonus (line 908), in test order. -/
def questionWords : List String :=
  ["what", "how", "why", "when", "where", "who", "which", "can", "could",
   "would", "should"]

/-- The `+0.5` question bonus (lines 907-910). -/
def questionBonus (messageLower : String) : Frac :=
  if questionWords.any (fun w => jsIncludes messageLower w) then frac 1 2
  else Frac.ofNat 0

/-- `totalScore` and `keywordCount` computed for one pattern
(body of the `responsePatterns.forEach` at lines 866-922). -/
def patternTotalKc (messageLower pattern : String) : Frac × Nat :=
  let patternLower := jsToLower pattern
  let base : Frac × Nat :=
    if jsIncludes messageLower patternLower then (Frac.ofNat 3, 1)
    else (Frac.ofNat 0, 0)
  let messageWords := jsSplitWs messageLower
  let patternWords := jsSplitWs patternLower
  let afterWords := patternWords.foldl (wordMatchStep messageWords) base
  ((afterWords.1.add (subMatchPass messageWords patternWords)).add
     (questionBonus messageLower),
   afterWords.2)

/-- The normalized score of one pattern (line 913). -/
def patternNormScore (messageLower pattern : String) : Frac :=
  let tk := patternTotalKc messageLower pattern
  if tk.2 > 0 then tk.1.divN tk.2 else tk.1

/-- One element of the `scores` array (lines 915-921). -/
structure ScoreEntry where
  pattern : String
  score : Frac
  totalScore : Frac
  keywordCount : Nat
  index : Nat

def patternEntry (messageLower : String) (idx : Nat) (pattern : String) :
    ScoreEntry :=
  let tk := patternTotalKc messageLower pattern
  { pattern := pattern, score := patternNormScore messageLower pattern,
    totalScore := tk.1, keywordCount := tk.2, index := idx }

/-- The unsorted `scores` array, one entry per pattern with its index. -/
def scoreEntries (messageLower : String) (idx : Nat) :
    List String → List ScoreEntry
  | [] => []
  | p :: ps => patternEntry messageLower idx p :: scoreEntries messageLower (idx + 1) ps

/-- `calculateResponseScore` (lines 835-928): score every pattern, then
`scores.sort((a, b) => b.score - a.score)` (stable, descending). -/
def calculateResponseScore (userMessage : String) (responsePatterns : List String) :
    List ScoreEntry :=
  jsSortDescBy ScoreEntry.score (scoreEntries (jsToLower userMessage) 0 responsePatterns)

/-- The value returned by `selectBestResponse` when a pattern clears the
threshold (lines 936-943). -/
structure BestResponse where
  pattern : String
  score : Frac
  confidence : Frac
  allScores : List ScoreEntry

/-- `selectBestResponse` (lines 931-946). -/
def selectBestResponse (userMessage : String) (responsePatterns : List String)
    (threshold : Frac) : Option BestResponse :=
  let scores := calculateResponseScore userMessage responsePatterns
  match scores with
  | [] => none
  | s0 :: _ =>
    if threshold.ble s0.score then
      some { pattern := s0.pattern, score := s0.score,
             confidence := (s0.score.divN 3).jsMin (Frac.ofNat 1),
             allScores := scores }
    else none

/-! ### Third-party library abstraction

`recognizeIntent` calls the `natural` TF-IDF scorer and several functions call
`compromise` (`nlp(message)`), neither of which is code of this repository.
They are embedded as an explicit bundle of pure functions: a numeric measure for
TF-IDF, a flag telling whether `nlp(message)` itself throws, `Except`-valued
extractors for the calls wrapped in `try`/`catch`, and `Option`-valued fields
for the methods whose existence the JS code tests before calling
(`doc.dates && typeof doc.dates === 'function'`, etc.). -/

/-- Sentiment record (`analyzeSentiment` result shape, lines 344-349/381-386). -/
structure Sentiment where
  score : Frac
  positive : Frac
  negative : Frac
  neutral : Frac

structure LibEnv where
  /-- `tfidf.tfidfs(messageLower, cb)`: the measure reported for one training
  document against the given (lowercased) message. -/
  tfidfMeasure : String → String → Frac
  /-- Whether `nlp(message)` constructs a document without throwing. -/
  nlpOk : String → Bool
  /-- `doc.values().toNumber().out('array')`, which may throw. -/
  valuesResult : String → Except String (List Frac)
  /-- `doc.dates`, when the library version provides it; the call may throw. -/
  datesFn : Option (String → Except String (List String))
  /-- `doc.organizations`, when provided. -/
  orgsFn : Option (String → Except String (List String))
  /-- `doc.places`, when provided. -/
  placesFn : Option (String → Except String (List String))
  /-- `doc.sentiment`, when provided. -/
  sentimentFn : Option (String → Except String Sentiment)
  /-- `doc.keywords`, when provided. -/
  keywordsFn : Option (String → Except String (List String))

/-! ### NLPService state and intent recognition (lines 6-116) -/

/-- The `intentTrainingData` table (lines 18-79), in declaration order. -/
def intentTrainingData : List (String × List String) :=
  [("loan_inquiry",
    ["how much loan can i get", "what is the maximum loan amount",
     "loan amount range", "borrow money", "get loan", "loan amount"]),
   ("application_process",
    ["how to apply", "application process", "apply for loan",
     "loan application steps", "how do i apply", "application procedure"]),
   ("eligibility",
    ["am i eligible", "eligibility criteria", "loan requirements",
     "qualify for loan", "can i get loan", "loan criteria"]),
   ("repayment",
    ["how to repay", "repayment process", "emi options", "payment methods",
     "repay loan", "due date"]),
   ("contact_support",
    ["contact support", "help me", "customer service", "talk to human",
     "phone number", "email support"]),
   ("greeting",
    ["hello", "hi", "hey", "good morning", "good evening", "namaste"]),
   ("gratitude",
    ["thank you", "thanks", "appreciate it", "thank you so much"]),
   ("farewell",
    ["bye", "goodbye", "see you", "talk later"])]

/-- The mutable state of an `NLPService` instance: the TF-IDF document list
built up by `initializeTrainingData` via `tfidf.addDocument(phrase, intent)`
(each document is a phrase tagged with its intent key, in insertion order). -/
structure NLPService where
  tfidfDocs : List (String × String)

/-- The service as the constructor leaves it: every training phrase added as a
document, intent by intent in table order (lines 82-86). -/
def initialService : NLPService :=
  ⟨intentTrainingData.foldl
     (fun acc e => acc ++ e.2.map (fun phrase => (phrase, e.1))) []⟩

structure IntentResult where
  intent : String
  confidence : Frac
  scores : List (String × Frac)

/-- The per-intent aggregation `scores[key] += measure` performed by the
`tfidf.tfidfs` callback (lines 95-98): keys appear in first-document order. -/
def aggregateScores (measure : String → Frac) (docs : List (String × String)) :
    List (String × Frac) :=
  docs.foldl (fun acc doc => jsAddScore acc doc.2 (measure doc.1)) []

/-- `recognizeIntent` (lines 90-116): aggregate TF-IDF measures per intent, then
keep the first strictly-improving intent over `('general_inquiry', 0)`. -/
def recognizeIntent (measure : String → String → Frac) (svc : NLPService)
    (message : String) : IntentResult :=
  let messageLower := jsToLower message
  let scores := aggregateScores (measure messageLower) svc.tfidfDocs
  let best := bestFoldStrict ("general_inquiry", Frac.ofNat 0) scores
  ⟨best.1, best.2, scores⟩

/-! ### Entity extraction (lines 119-222) -/

structure Entities where
  amounts : List Frac
  dates : List String
  contact_info : List String
  documents : List String
  organizations : List String
  locations : List String

/-- Take exactly `k` decimal digits. -/
def takeDigits : Nat → List Char → Option (List Char × List Char)
  | 0, s => some ([], s)
  | _ + 1, [] => none
  | k + 1, c :: cs =>
    if c.isDigit then (takeDigits k cs).map (fun r => (c :: r.1, r.2))
    else none

/-- `\d{1,2}` with the greedy-first backtracking order of a JS regex engine:
the two-digit candidate is tried before the one-digit one. -/
def take12Digits (s : List Char) : List (List Char × List Char) :=
  match s with
  | a :: b :: rest =>
    if a.isDigit && b.isDigit then [([a, b], rest), ([a], b :: rest)]
    else if a.isDigit then [([a], b :: rest)]
    else []
  | [a] => if a.isDigit then [([a], [])] else []
  | [] => []

/-- `\d{1,2} sep \d{1,2} sep \d{4}` at the head of `s`. -/
def matchDMY (sep : Char) (s : List Char) : Option (List Char × List Char) :=
  (take12Digits s).findSome? fun r1 =>
    match r1.2 with
    | c :: r2 =>
      if c == sep then
        (take12Digits r2).findSome? fun r3 =>
          match r3.2 with
          | c2 :: r4 =>
            if c2 == sep then
              (takeDigits 4 r4).map fun r5 =>
                (r1.1 ++ c :: r3.1 ++ c2 :: r5.1, r5.2)
            else none
          | [] => none
      else none
    | [] => none

/-- `\d{4}-\d{1,2}-\d{1,2}` at the head of `s`. -/
def matchYMD (s : List Char) : Option (List Char × List Char) :=
  (takeDigits 4 s).bind fun r1 =>
    match r1.2 with
    | '-' :: r2 =>
      (take12Digits r2).findSome? fun r3 =>
        match r3.2 with
        | '-' :: r4 =>
          (take12Digits r4).head?.map fun r5 =>
            (r1.1 ++ '-' :: r3.1 ++ '-' :: r5.1, r5.2)
        | _ => none
    | _ => none

/-- Scan `s` for all non-overlapping matches of `m`, continuing after each match
(JS `String.prototype.match` with the `g` flag); the fuel argument makes the
recursion structural and is always sufficient because every match consumes at
least one character. -/
def scanAllFuel (m : List Char → Option (List Char × List Char)) :
    Nat → List Char → List String
  | 0, _ => []
  | _ + 1, [] => []
  | fuel + 1, c :: rest =>
    match m (c :: rest) with
    | some r => (⟨r.1⟩ : String) :: scanAllFuel m fuel r.2
    | none => scanAllFuel m fuel rest

def scanAll (m : List Char → Option (List Char × List Char)) (s : String) :
    List String :=
  scanAllFuel m (s.data.length + 1) s.data

/-- The regex fallback of the date extractor (lines 147-158): the three date
patterns are matched globally one after the other and their matches
concatenated. -/
def fallbackDateExtraction (message : String) : List String :=
  scanAll (matchDMY '/') message ++ scanAll (matchDMY '-') message ++
    scanAll matchYMD message

/-- `[789]\d{9}` at the head of `s`. -/
def matchPhoneBody (s : List Char) : Option (List Char × List Char) :=
  match s with
  | c :: rest =>
    if c == '7' || c == '8' || c == '9' then
      (takeDigits 9 rest).map (fun r => (c :: r.1, r.2))
    else none
  | [] => none

/-- `(\+91\s?)?[789]\d{9}` at the head of `s`: the optional group is tried
greedily (with its optional whitespace also greedy) and dropped on failure,
exactly as a backtracking regex engine does. -/
def matchPhone (s : List Char) : Option (List Char × List Char) :=
  match s with
  | '+' :: '9' :: '1' :: rest =>
    let withWs : Option (List Char × List Char) :=
      match rest with
      | w :: rest2 =>
        if w.isWhitespace then
          (matchPhoneBody rest2).map (fun r => ('+' :: '9' :: '1' :: w :: r.1, r.2))
        else none
      | [] => none
    match withWs with
    | some x => some x
    | none =>
      match matchPhoneBody rest with
      | some r => some ('+' :: '9' :: '1' :: r.1, r.2)
      | none => matchPhoneBody s
  | _ => matchPhoneBody s

/-- A character of the local part `[a-zA-Z0-9._%+-]`. -/
def emailLocalChar (c : Char) : Bool :=
  c.isAlphanum || c == '.' || c == '_' || c == '%' || c == '+' || c == '-'

/-- A character of the domain part `[a-zA-Z0-9.-]`. -/
def emailDomainChar (c : Char) : Bool :=
  c.isAlphanum || c == '.' || c == '-'

/-- Backtracking for `[a-zA-Z0-9.-]+\.[a-zA-Z]{2,}`: try the longest domain
prefix of length `k`, then shorter ones, each followed by `'.'` and a greedy
run of at least two letters. -/
def emailTrySplit (r1 : List Char) : Nat → Option (List Char × List Char)
  | 0 => none
  | k + 1 =>
    match r1.drop (k + 1) with
    | '.' :: r2 =>
      let letters := r2.takeWhile Char.isAlpha
      if 2 ≤ letters.length then
        some (r1.take (k + 1) ++ '.' :: letters, r2.drop letters.length)
      else emailTrySplit r1 k
    | _ => emailTrySplit r1 k

/-- `[a-zA-Z0-9._%+-]+@[a-zA-Z0-9.-]+\.[a-zA-Z]{2,}` at the head of `s`. -/
def matchEmail (s : List Char) : Option (List Char × List Char) :=
  let loc := s.takeWhile emailLocalChar
  if loc.isEmpty then none
  else
    match s.drop loc.length with
    | '@' :: r1 =>
      let dom := r1.takeWhile emailDomainChar
      if dom.isEmpty then none
      else
        (emailTrySplit r1 dom.length).map
          (fun r => (loc ++ '@' :: r.1, r.2))
    | _ => none

/-- The fixed document keyword list (line 192). -/
def documentKeywords : List String :=
  ["pan", "aadhaar", "adhar", "bank statement", "salary slip", "passport"]

/-- `extractEntities` (lines 119-222).  The outer `try`/`catch` returns the
all-empty record when `nlp(message)` itself throws; each of the four
library-backed sub-extractions is wrapped in its own `try`/`catch` that turns a
throw into an empty container without touching the other fields; document and
contact extraction are plain string/regex work on `message` and cannot throw. -/
def extractEntities (env : LibEnv) (message : String) : Entities :=
  if env.nlpOk message then
    let amounts := match env.valuesResult message with
      | .ok l => l
      | .error _ => []
    let dates := match env.datesFn with
      | some f => match f message with
        | .ok l => l
        | .error _ => []
      | none => fallbackDateExtraction message
    let organizations := match env.orgsFn with
      | some f => match f message with
        | .ok l => l
        | .error _ => []
      | none => []
    let locations := match env.placesFn with
      | some f => match f message with
        | .ok l => l
        | .error _ => []
      | none => []
    let documents :=
      documentKeywords.filter (fun d => jsIncludes (jsToLower message) d)
    let contact := scanAll matchPhone message ++ scanAll matchEmail message
    ⟨amounts, dates, contact, documents, organizations, locations⟩
  else ⟨[], [], [], [], [], []⟩

/-! ### Sentiment analysis (lines 335-387) -/

def positiveWords : List String :=
  ["good", "great", "excellent", "amazing", "wonderful", "happy", "thank",
   "thanks", "appreciate", "love", "like", "perfect", "awesome", "fantastic",
   "brilliant", "outstanding"]

def negativeWords : List String :=
  ["bad", "terrible", "awful", "horrible", "sad", "angry", "frustrated",
   "disappointed", "hate", "dislike", "worst", "useless", "stupid",
   "annoying", "problem", "issue", "error"]

/-- `fallbackSentimentAnalysis` (lines 362-387): word-list hit counts and their
difference ratio. -/
def fallbackSentimentAnalysis (message : String) : Sentiment :=
  let messageLower := jsToLower message
  let positiveCount := positiveWords.countP (fun w => jsIncludes messageLower w)
  let negativeCount := negativeWords.countP (fun w => jsIncludes messageLower w)
  let total := positiveCount + negativeCount
  let score :=
    if total > 0 then frac ((positiveCount : Int) - (negativeCount : Int)) total
    else Frac.ofNat 0
  ⟨score, Frac.ofNat positiveCount, Frac.ofNat negativeCount,
   if total == 0 then Frac.ofNat 1 else Frac.ofNat 0⟩

/-- `analyzeSentiment` (lines 336-359): use `doc.sentiment` when the library
provides it (falling back if that call throws), else the fallback analogue;
an `nlp(message)` throw is caught by the outer handler and also falls back. -/
def analyzeSentiment (env : LibEnv) (message : String) : Sentiment :=
  if env.nlpOk message then
    match env.sentimentFn with
    | some f =>
      match f message with
      | .ok s => s
      | .error _ => fallbackSentimentAnalysis message
    | none => fallbackSentimentAnalysis message
  else fallbackSentimentAnalysis message

/-! ### Keyword extraction (lines 389-431) -/

def stopWords : List String :=
  ["the", "a", "an", "and", "or", "but", "in", "on", "at", "to", "for", "of",
   "with", "by", "is", "are", "was", "were", "be", "been", "have", "has",
   "had", "do", "does", "did", "will", "would", "could", "should", "may",
   "might", "can", "this", "that", "these", "those", "i", "you", "he", "she",
   "it", "we", "they", "me", "him", "her", "us", "them", "what", "how",
   "when", "where", "why", "who", "which"]

/-- The regex test `/^[a-zA-Z]+$/.test(word)`. -/
def isAlphaWord (w : String) : Bool :=
  !w.data.isEmpty && w.data.all Char.isAlpha

/-- `fallbackKeywordExtraction` (lines 410-431): filter, count occurrences in an
insertion-ordered map, sort entries descending by count (stable) and keep the
top `maxKeywords` words. -/
def fallbackKeywordExtraction (message : String) (maxKeywords : Nat) :
    List String :=
  let words := jsSplitWs (jsToLower message)
  let filteredWords := words.filter (fun w =>
    decide (2 < w.length) && !(stopWords.contains w) && isAlphaWord w)
  let wordCount := filteredWords.foldl (fun acc w => jsBumpNat acc w) []
  ((jsSortDescBy (fun e => Frac.ofNat e.2) wordCount).take maxKeywords).map
    (fun e => e.1)

/-- `extractKeywords` (lines 390-407) with its default `maxKeywords = 5`. -/
def extractKeywords (env : LibEnv) (message : String) : List String :=
  if env.nlpOk message then
    match env.keywordsFn with
    | some f =>
      match f message with
      | .ok l => l.take 5
      | .error _ => fallbackKeywordExtraction message 5
    | none => fallbackKeywordExtraction message 5
  else fallbackKeywordExtraction message 5

/-! ### Semantic context analysis (lines 477-551, 697-727)

Conversation-history entries are used by the JS code only through
`msg.content || msg`, so a history is embedded as the list of its content
strings. -/

structure CategoryData where
  keywords : List String
  context : String

/-- The `semanticCategories` table (lines 481-522), in declaration order. -/
def semanticCategories : List (String × CategoryData) :=
  [("loan_inquiry",
    ⟨["loan", "borrow", "money", "amount", "how much", "get loan",
      "need money", "financial help"],
     "user wants to know about loan options and amounts"⟩),
   ("application_process",
    ⟨["apply", "application", "process", "how to apply", "steps", "procedure",
      "apply for loan"],
     "user wants to understand the application process"⟩),
   ("eligibility",
    ⟨["eligible", "qualify", "requirements", "criteria", "can i get",
      "am i eligible", "qualification"],
     "user wants to check their eligibility"⟩),
   ("documents",
    ⟨["documents", "papers", "kyc", "pan", "aadhaar", "bank statement",
      "salary slip", "proof"],
     "user wants to know about required documents"⟩),
   ("repayment",
    ⟨["repay", "payment", "emi", "installment", "due date", "pay back",
      "repayment"],
     "user wants to understand repayment terms"⟩),
   ("interest_charges",
    ⟨["interest", "rate", "charges", "fees", "cost", "how much interest",
      "charges"],
     "user wants to know about interest rates and charges"⟩),
   ("company_info",
    ⟨["company", "fundobaba", "about", "what is", "legitimate", "safe",
      "trust"],
     "user wants to know about the company"⟩),
   ("support_contact",
    ⟨["contact", "support", "help", "phone", "email", "customer service",
      "human"],
     "user wants to contact support"⟩),
   ("technical_issues",
    ⟨["problem", "issue", "error", "not working", "technical", "bug",
      "trouble"],
     "user is facing technical issues"⟩),
   ("loan_status",
    ⟨["status", "track", "check", "approved", "disbursed", "pending",
      "rejected"],
     "user wants to check loan status"⟩)]

/-- The per-category confidence (lines 529-537): matched-keyword count
normalized by the size of the category's keyword set. -/
def categoryScore (messageLower : String) (data : CategoryData) : Frac :=
  (Frac.ofNat (data.keywords.countP (fun k => jsIncludes messageLower k))).divN
    data.keywords.length

/-- The static related-topics table of `findRelatedTopics` (lines 698-705). -/
def relatedTopicsTable : List (String × List String) :=
  [("loan_inquiry", ["application_process", "eligibility", "interest_charges"]),
   ("application_process", ["documents", "eligibility", "loan_inquiry"]),
   ("documents", ["kyc", "application_process", "eligibility"]),
   ("repayment", ["interest_charges", "loan_inquiry"]),
   ("interest_charges", ["loan_inquiry", "repayment"]),
   ("company_info", ["support_contact", "loan_inquiry"])]

/-- `findRelatedTopics` (lines 697-727): a non-recursive keyword `if`-chain
picks a category, whose adjacency entry is returned (`undefined` ↦ `[]`).
The `conversationHistory` parameter is accepted and ignored, as in the JS. -/
def findRelatedTopics (message : String) (conversationHistory : List String) :
    List String :=
  let messageLower := jsToLower message
  let currentCategory : Option String :=
    if jsIncludes messageLower "loan" || jsIncludes messageLower "borrow" ||
        jsIncludes messageLower "money" then some "loan_inquiry"
    else if jsIncludes messageLower "apply" || jsIncludes messageLower "process" ||
        jsIncludes messageLower "steps" then some "application_process"
    else if jsIncludes messageLower "documents" || jsIncludes messageLower "papers" ||
        jsIncludes messageLower "kyc" then some "documents"
    else if jsIncludes messageLower "repay" || jsIncludes messageLower "payment" ||
        jsIncludes messageLower "emi" then some "repayment"
    else if jsIncludes messageLower "interest" || jsIncludes messageLower "rate" ||
        jsIncludes messageLower "charges" then some "interest_charges"
    else if jsIncludes messageLower "company" || jsIncludes messageLower "fundobaba" ||
        jsIncludes messageLower "about" then some "company_info"
    else none
  match currentCategory with
  | some c => (alistLookup relatedTopicsTable c).getD []
  | none => []

structure SemanticContext where
  category : Option String
  confidence : Frac
  context : String
  relatedTopics : List String

/-- `analyzeSemanticContext` (lines 477-551): strict-improvement scan over the
category table starting from `(null, 0)`; the winning category's `context`
string is looked up back in the table (`'general inquiry'` when no category
scored above zero; the lookup cannot miss for a winner drawn from the table). -/
def analyzeSemanticContext (message : String) (conversationHistory : List String) :
    SemanticContext :=
  let messageLower := jsToLower message
  let best := bestFoldStrict ((none : Option String), Frac.ofNat 0)
    (semanticCategories.map (fun e => (some e.1, categoryScore messageLower e.2)))
  { category := best.1
    confidence := best.2
    context :=
      match best.1 with
      | some c =>
        match alistLookup semanticCategories c with
        | some d => d.context
        | none => "general inquiry"
      | none => "general inquiry"
    relatedTopics := findRelatedTopics message conversationHistory }

/-! ### Conversation topic (lines 553-584) -/

/-- The property key JS derives from using an `Object.entries` pair as an index:
the array is converted to the string `"key,value"`. -/
def jsPropKeyOfEntry (e : String × Nat) : String :=
  e.1 ++ "," ++ toString e.2

/-- A JS `>` comparison whose operands may be `undefined`: any comparison with
`undefined` is false. -/
def natLookupGt : Option Nat → Option Nat → Bool
  | some a, some b => decide (b < a)
  | _, _ => false

/-- The `reduce` of line 577: `Object.entries(topics).reduce((a, b) =>
topics[a] > topics[b] ? a : b)`.  `a` and `b` are entry arrays, so `topics[a]`
reads property `"key,value"`, which is always `undefined` here; both sides of
`>` being `undefined`, the comparison is false and the reduce keeps `b` — the
final entry. -/
def jsReduceEntriesByEntryKey (topics : List (String × Nat)) : String × Nat :=
  match topics with
  | [] => ("", 0)
  | e :: es =>
    es.foldl
      (fun a b =>
        if natLookupGt (alistLookup topics (jsPropKeyOfEntry a))
            (alistLookup topics (jsPropKeyOfEntry b)) then a
        else b)
      e

inductive Topic where
  | newConversation
  | info (primary : String × Nat) (distribution : List (String × Nat))
      (consistency : Frac)
deriving DecidableEq

/-- `identifyConversationTopic` (lines 554-584).  Note the initialized keys
(`application`, `technical`, ...) do not coincide with the category names
`analyzeSemanticContext` produces, so unknown categories are appended as fresh
keys, and `primary` is whatever entry the (broken) reduce of line 577 returns. -/
def identifyConversationTopic (conversationHistory : List String) : Topic :=
  if conversationHistory.length == 0 then .newConversation
  else
    let recentMessages := lastN 5 conversationHistory
    let initTopics : List (String × Nat) :=
      [("loan_inquiry", 0), ("application", 0), ("documents", 0),
       ("repayment", 0), ("support", 0), ("technical", 0)]
    let topics := recentMessages.foldl
      (fun acc msg =>
        match (analyzeSemanticContext msg []).category with
        | some c => jsBumpNat acc c
        | none => acc)
      initTopics
    let mainTopic := jsReduceEntriesByEntryKey topics
    .info mainTopic topics
      ((Frac.ofNat ((topics.map (fun e => e.2)).foldl Nat.max 0)).divN
        recentMessages.length)

/-! ### User journey (lines 586-630, 729-819) -/

/-- The `journeyStages` table (lines 590-597; `getJourneyStages`, lines
798-807, repeats it verbatim). -/
def journeyStages : List (String × List String) :=
  [("awareness", ["hello", "hi", "what is", "about", "company"]),
   ("interest", ["loan", "amount", "how much", "interest", "charges"]),
   ("consideration",
    ["apply", "process", "documents", "eligibility", "requirements"]),
   ("application", ["apply now", "start application", "begin process"]),
   ("post_application", ["status", "track", "approved", "disbursed"]),
   ("support", ["help", "contact", "problem", "issue"])]

/-- The per-stage score of `determineUserStage`: one point per (message,
keyword) pair with the keyword a substring of the lowercased message, over the
last 3 messages. -/
def stageScoreVal (conversationHistory : List String) (keywords : List String) :
    Nat :=
  ((lastN 3 conversationHistory).map
    (fun m => keywords.countP (fun kw => jsIncludes (jsToLower m) kw))).sum

def stageScoresList (conversationHistory : List String)
    (stages : List (String × List String)) : List (String × Nat) :=
  stages.map (fun e => (e.1, stageScoreVal conversationHistory e.2))

/-- The `reduce` of lines 627-629: `entries.reduce((a, b) =>
stageScores[a[0]] > stageScores[b[0]] ? a : b)` — keys are looked up correctly
here, but `a` is kept only on a strictly greater score, so ties go to the
later entry. -/
def jsReduceStageEntries (scores : List (String × Nat)) : String × Nat :=
  match scores with
  | [] => ("", 0)
  | e :: es =>
    es.foldl
      (fun a b =>
        if natLookupGt (alistLookup scores a.1) (alistLookup scores b.1) then a
        else b)
      e

/-- `determineUserStage` (lines 610-630). -/
def determineUserStage (conversationHistory : List String)
    (stages : List (String × List String)) : String :=
  (jsReduceStageEntries (stageScoresList conversationHistory stages)).1

/-! ### Question type, urgency, complexity (lines 632-694) -/

/-- The ordered `questionTypes` table (lines 634-650): each type name is also
the word its regex anchors on. -/
def questionTypeWords : List String :=
  ["what", "how", "when", "where", "why", "who", "which", "can", "could",
   "would", "should", "is", "are", "do", "does"]

/-- `classifyQuestionType` (lines 632-659). -/
def classifyQuestionType (message : String) : String :=
  match questionTypeWords.find? (fun w => startsWithWordCI message w) with
  | some t => t
  | none => "statement"

def urgentKeywords : List String :=
  ["urgent", "emergency", "asap", "immediately", "now", "quick", "fast",
   "hurry"]

structure Urgency where
  score : Frac
  level : String
deriving DecidableEq

/-- `assessUrgency` (lines 661-680): keyword hits plus a negative-sentiment
half-point; the returned score is clipped at 1 but the level thresholds read
the unclipped value. -/
def assessUrgency (message : String) (sentiment : Sentiment) : Urgency :=
  let messageLower := jsToLower message
  let hits := urgentKeywords.countP (fun k => jsIncludes messageLower k)
  let urgencyScore :=
    if sentiment.score.blt (frac (-3) 10) then
      (Frac.ofNat hits).add (frac 1 2)
    else Frac.ofNat hits
  ⟨urgencyScore.jsMin (Frac.ofNat 1),
   if (frac 7 10).blt urgencyScore then "high"
   else if (frac 3 10).blt urgencyScore then "medium"
   else "low"⟩

structure Complexity where
  wordCount : Nat
  sentenceCount : Nat
  avgWordsPerSentence : Frac
  complexity : String
deriving DecidableEq

/-- `assessComplexity` (lines 682-694). -/
def assessComplexity (message : String) : Complexity :=
  let words := (jsSplitWs message).length
  let sentences := (jsSplitSentences message).length
  let avg := (Frac.ofNat words).divN sentences
  ⟨words, sentences, avg,
   if (Frac.ofNat 15).blt avg then "high"
   else if (Frac.ofNat 10).blt avg then "medium"
   else "low"⟩

/-! ### Mood, needs, engagement, progression (lines 729-832) -/

/-- `analyzeUserMood` (lines 821-832): mean fallback/library sentiment over the
last 5 history messages.  On an empty history the JS mean is `NaN`, whose
comparisons are all false; the embedded mean is `0` there, with the same
`'neutral'` outcome.  The current message's `sentiment` argument is accepted
and ignored, exactly as in the JS. -/
def analyzeUserMood (env : LibEnv) (sentiment : Sentiment)
    (conversationHistory : List String) : String :=
  let recentSentiments := (lastN 5 conversationHistory).map
    (fun m => analyzeSentiment env m)
  let avgSentiment :=
    (Frac.lsum (recentSentiments.map (fun s => s.score))).divN
      recentSentiments.length
  if (frac 3 10).blt avgSentiment then "positive"
  else if avgSentiment.blt (frac (-3) 10) then "negative"
  else "neutral"

structure Needs where
  information : Nat
  guidance : Nat
  support : Nat
  clarification : Nat
  reassurance : Nat
deriving DecidableEq

/-- `identifyUserNeeds` (lines 767-795): one `if`/`else if` chain per history
message over the lowercased content. -/
def identifyUserNeeds (conversationHistory : List String) : Needs :=
  conversationHistory.foldl
    (fun acc msg =>
      let content := jsToLower msg
      let questionType := classifyQuestionType content
      if questionType == "what" || questionType == "how" then
        { acc with information := acc.information + 1 }
      else if questionType == "can" || questionType == "could" then
        { acc with guidance := acc.guidance + 1 }
      else if jsIncludes content "help" || jsIncludes content "support" then
        { acc with support := acc.support + 1 }
      else if questionType == "why" || jsIncludes content "clarify" then
        { acc with clarification := acc.clarification + 1 }
      else if jsIncludes content "safe" || jsIncludes content "trust" ||
          jsIncludes content "legitimate" then
        { acc with reassurance := acc.reassurance + 1 }
      else acc)
    ⟨0, 0, 0, 0, 0⟩

structure Engagement where
  messageCount : Nat
  avgMessageLength : Frac
  followUpQuestions : Nat
  engagement : String
deriving DecidableEq

/-- Count of history entries with positive index whose content is classified as
a question (lines 755-757). -/
def followUpCount (conversationHistory : List String) : Nat :=
  (conversationHistory.enum.filter
    (fun p => decide (0 < p.1) && classifyQuestionType p.2 != "statement")).length

/-- `calculateEngagement` (lines 749-765). -/
def calculateEngagement (conversationHistory : List String) : Engagement :=
  let messageCount := conversationHistory.length
  let avgMessageLength :=
    (Frac.lsum (conversationHistory.map (fun m => Frac.ofNat m.length))).divN
      messageCount
  ⟨messageCount, avgMessageLength, followUpCount conversationHistory,
   if 5 < messageCount then "high"
   else if 2 < messageCount then "medium"
   else "low"⟩

/-- `[...new Set(xs)]`: deduplicate keeping first occurrences. -/
def dedupFirst (l : List String) : List String :=
  l.foldl (fun acc x => if acc.contains x then acc else acc ++ [x]) []

/-- `arr.indexOf(x)`: index of the first occurrence, `-1` when absent. -/
def jsIndexOf (l : List String) (x : String) : Int :=
  match l.findIdx? (fun y => y == x) with
  | some i => (i : Int)
  | none => -1

/-- `every((index, i) => i === 0 || index >= stageIndices[i - 1])`. -/
def nondecreasingInt : List Int → Bool
  | [] => true
  | [_] => true
  | a :: b :: rest => decide (a ≤ b) && nondecreasingInt (b :: rest)

/-- `assessDirection` (lines 809-819). -/
def assessDirection (recentStages allStages : List String) : String :=
  if recentStages.length < 2 then "neutral"
  else
    let stageIndices := recentStages.map (fun s => jsIndexOf allStages s)
    if nondecreasingInt stageIndices then "forward" else "backward"

inductive Progression where
  | starting
  | info (status : String) (stages : List String) (direction : String)
deriving DecidableEq

/-- `analyzeProgression` (lines 729-747).  The local `stages` list omits
`support`, so a `support` stage indexes as `-1` in `assessDirection`. -/
def analyzeProgression (conversationHistory : List String) : Progression :=
  if conversationHistory.length < 2 then .starting
  else
    let stages :=
      ["awareness", "interest", "consideration", "application",
       "post_application"]
    let recentStages := (lastN 3 conversationHistory).map
      (fun msg => determineUserStage [msg] journeyStages)
    let uniqueStages := dedupFirst recentStages
    .info (if 1 < uniqueStages.length then "progressing" else "stuck")
      recentStages (assessDirection recentStages stages)

inductive Journey where
  | newUser
  | info (stage : String) (progression : Progression)
      (engagement : Engagement) (needs : Needs)
deriving DecidableEq

/-- `analyzeUserJourney` (lines 586-607). -/
def analyzeUserJourney (conversationHistory : List String) : Journey :=
  if conversationHistory.length == 0 then .newUser
  else
    .info (determineUserStage conversationHistory journeyStages)
      (analyzeProgression conversationHistory)
      (calculateEngagement conversationHistory)
      (identifyUserNeeds conversationHistory)

/-! ### `understandContext` (lines 445-474) -/

structure Context where
  currentIntent : IntentResult
  entities : Entities
  sentiment : Sentiment
  keywords : List String
  conversationLength : Nat
  previousIntents : List IntentResult
  isFollowUp : Bool
  userMood : String
  semanticContext : SemanticContext
  conversationTopic : Topic
  userJourney : Journey
  questionType : String
  urgency : Urgency
  complexity : Complexity

/-- `understandContext` (lines 446-474), with the instance state threaded
explicitly: the method reads `this.tfidf` (through `recognizeIntent`) and
assigns to no instance field, so the state it leaves behind is the state it was
given. -/
def understandContext (env : LibEnv) (svc : NLPService) (message : String)
    (conversationHistory : List String) : Context × NLPService :=
  let intent := recognizeIntent env.tfidfMeasure svc message
  let entities := extractEntities env message
  let sentiment := analyzeSentiment env message
  let keywords := extractKeywords env message
  let semanticContext := analyzeSemanticContext message conversationHistory
  ({ currentIntent := intent
     entities := entities
     sentiment := sentiment
     keywords := keywords
     conversationLength := conversationHistory.length
     previousIntents := (lastN 3 conversationHistory).map
       (fun m => recognizeIntent env.tfidfMeasure svc m)
     isFollowUp := decide (0 < conversationHistory.length)
     userMood := analyzeUserMood env sentiment conversationHistory
     semanticContext := semanticContext
     conversationTopic := identifyConversationTopic conversationHistory
     userJourney := analyzeUserJourney conversationHistory
     questionType := classifyQuestionType message
     urgency := assessUrgency message sentiment
     complexity := assessComplexity message }, svc)

/-! ### The pattern-based responder of the chat route (chat.js lines 531-645) -/

def respEmi : String :=
  "No, we currently don\x27t offer EMI format. However, sometimes we do take payment in partial payments when approved by our team. For regular repayment, you need to pay the full amount on the due date."

def respMaxLoan : String :=
  "We offer loan amounts ranging from â‚¹5,000 to â‚¹1,00,000 (1 lakh). The exact amount you can borrow depends on your income, credit score, and repayment capacity."

def respMinLoan : String :=
  "The minimum loan amount we offer is â‚¹5,000."

def respSalary : String :=
  "The minimum salary requirement to take a loan is â‚¹40,000 per month. This helps ensure you have sufficient income to repay the loan comfortably."

def respRepayOblige : String :=
  "You are obliged to repay the loan. If you don\x27t repay on time, your CIBIL score will decrease, which can affect your future loan applications. To repay, go to your dashboard and click on the repayment button to make the payment."

def respCriteria : String :=
  "To get a loan from Fundobaba, you need:\n\nâ€¢ CIBIL score greater than 600\nâ€¢ Salary greater than â‚¹40,000 per month\nâ€¢ PAN and Aadhaar should be linked\nâ€¢ 3 months bank statement ready\n\nMake sure you have all these documents handy before applying!"

def respReloan : String :=
  "To take a reloan:\n\n1. Close your previous loan if you have any active loan\n2. Go to your dashboard\n3. Click on the reloan button to take the loan\n\nThat\x27s it! You can take reloan multiple times if you need to."

def respGratitude : String :=
  "You\x27re most welcome! I\x27m glad I could help you with Fundobaba\x27s loan services. Feel free to reach out anytime if you have more questions about our quick pay-day loans or application process."

def respUnderstanding : String :=
  "Great! I\x27m glad that helps. Is there anything else you\x27d like to know about Fundobaba\x27s loan services? I\x27m here to assist you with any questions about our quick pay-day loans, application process, or other services."

def respClosing : String :=
  "Perfect! I\x27m glad I could help you with Fundobaba\x27s services. If you need any assistance with our quick pay-day loans in the future, feel free to reach out. Good luck with your application!"

def respHelp : String :=
  "I\x27m here to help you with Fundobaba\x27s quick pay-day loan services. How can I assist you today?"

/-- The `responsePatterns` table of `generatePatternBasedResponse`
(chat.js lines 536-629), in declaration order. -/
def responsePatternTable : List (String × String) :=
  [("emi", respEmi),
   ("installment", respEmi),
   ("monthly payment", respEmi),
   ("max loan", respMaxLoan),
   ("maximum loan", respMaxLoan),
   ("highest loan", respMaxLoan),
   ("loan range", respMaxLoan),
   ("max amount", respMaxLoan),
   ("maximum amount", respMaxLoan),
   ("highest amount", respMaxLoan),
   ("min loan", respMinLoan),
   ("minimum loan", respMinLoan),
   ("lowest loan", respMinLoan),
   ("min amount", respMinLoan),
   ("minimum amount", respMinLoan),
   ("salary", respSalary),
   ("income", respSalary),
   ("minimum salary", respSalary),
   ("salary requirement", respSalary),
   ("income requirement", respSalary),
   ("dont repay", respRepayOblige),
   ("don\x27t repay", respRepayOblige),
   ("not repay", respRepayOblige),
   ("miss payment", respRepayOblige),
   ("late payment", respRepayOblige),
   ("default", respRepayOblige),
   ("criteria", respCriteria),
   ("eligibility criteria", respCriteria),
   ("loan criteria", respCriteria),
   ("requirements", respCriteria),
   ("qualification", respCriteria),
   ("what needed", respCriteria),
   ("eligible", respCriteria),
   ("reloan", respReloan),
   ("re loan", respReloan),
   ("another loan", respReloan),
   ("second loan", respReloan),
   ("next loan", respReloan),
   ("take another loan", respReloan),
   ("how to take reloan", respReloan),
   ("thank", respGratitude),
   ("thank you so much", respGratitude),
   ("appreciate it", respGratitude),
   ("much appreciated", respGratitude),
   ("thnx", respGratitude),
   ("thanks", respGratitude),
   ("got it", respUnderstanding),
   ("ok", respUnderstanding),
   ("okay", respUnderstanding),
   ("alright", respUnderstanding),
   ("understood", respUnderstanding),
   ("makes sense", respUnderstanding),
   ("i see", respUnderstanding),
   ("gotcha", respUnderstanding),
   ("cool", respUnderstanding),
   ("sounds good", respUnderstanding),
   ("noted", respUnderstanding),
   ("copy that", respUnderstanding),
   ("thats all", respClosing),
   ("that\x27s all", respClosing),
   ("no further questions", respClosing),
   ("that helps", respClosing),
   ("will check", respClosing),
   ("will try that", respClosing),
   ("ill get back", respClosing),
   ("i\x27ll get back", respClosing),
   ("talk later", respClosing),
   ("help me", respHelp),
   ("help", respHelp),
   ("assist", respHelp),
   ("support", respHelp)]

/-- The default response of `generatePatternBasedResponse` (line 644). -/
def patternFallbackResponse : String :=
  "Thank you for your question! I\x27m here to help you with Fundobaba pay-day loans and services. Could you please be more specific about what you\x27d like to know? I can help with loan information, application process, terms and conditions, data privacy, regulatory compliance, or any other aspect of our services."

/-- The flat pattern list handed to `selectBestResponse` (line 632). -/
def chatPatterns : List String :=
  responsePatternTable.map (fun rp => rp.1)

/-- `generatePatternBasedResponse` (lines 532-645), which calls
`selectBestResponse` at threshold `0.3` and answers with the matched pattern's
response, or with the default text when no pattern clears the threshold.  The
unused `findMatch` parameter of the JS function is omitted.  The `find` on
line 639 cannot miss (the winning pattern comes from the table); a miss would
be a JS `TypeError`, embedded as `none`. -/
def generatePatternBasedResponse (userMessage : String) : Option String :=
  match selectBestResponse userMessage chatPatterns (frac 3 10) with
  | some best =>
    (responsePatternTable.find? (fun rp => rp.1 == best.pattern)).map
      (fun rp => rp.2)
  | none => some patternFallbackResponse

/-! ## Theorems

All declarations above are definitions; everything from here on is proof. -/

theorem Frac.d_ne_zero (a : Frac) : ((a.d : ℚ)) ≠ 0 := by
  exact_mod_cast Nat.pos_iff_ne_zero.mp a.dpos

theorem Frac.val_frac (n : Int) (d : Nat) (h : 0 < d) :
    (frac n d).val = (n : ℚ) / (d : ℚ) := by
  simp [frac, h, val]

theorem Frac.val_ofNat (n : Nat) : (Frac.ofNat n).val = (n : ℚ) := by
  simp [val, ofNat]

theorem Frac.val_add (a b : Frac) : (a.add b).val = a.val + b.val := by
  have ha := a.d_ne_zero
  have hb := b.d_ne_zero
  simp only [val, add]
  push_cast
  field_simp

theorem Frac.val_mul (a b : Frac) : (a.mul b).val = a.val * b.val := by
  simp only [val, mul]
  push_cast
  field_simp

theorem Frac.val_divN (a : Frac) (k : Nat) : (a.divN k).val = a.val / (k : ℚ) := by
  by_cases h : 0 < k
  · have hk : ((k : ℚ)) ≠ 0 := by exact_mod_cast Nat.pos_iff_ne_zero.mp h
    simp only [val, divN, dif_pos h]
    push_cast
    field_simp
  · have hk : k = 0 := Nat.eq_zero_of_not_pos h
    simp [val, divN, h, hk]

theorem Frac.ble_iff (a b : Frac) : a.ble b = true ↔ a.val ≤ b.val := by
  have ha : (0 : ℚ) < (a.d : ℚ) := by exact_mod_cast a.dpos
  have hb : (0 : ℚ) < (b.d : ℚ) := by exact_mod_cast b.dpos
  simp only [ble, decide_eq_true_eq, val]
  rw [div_le_div_iff₀ ha hb]
  constructor
  · intro h
    exact_mod_cast h
  · intro h
    exact_mod_cast h

theorem Frac.blt_iff (a b : Frac) : a.blt b = true ↔ a.val < b.val := by
  have ha : (0 : ℚ) < (a.d : ℚ) := by exact_mod_cast a.dpos
  have hb : (0 : ℚ) < (b.d : ℚ) := by exact_mod_cast b.dpos
  simp only [blt, decide_eq_true_eq, val]
  rw [div_lt_div_iff₀ ha hb]
  constructor
  · intro h
    exact_mod_cast h
  · intro h
    exact_mod_cast h

theorem Frac.beq_iff (a b : Frac) : a.beq b = true ↔ a.val = b.val := by
  have ha : (0 : ℚ) < (a.d : ℚ) := by exact_mod_cast a.dpos
  have hb : (0 : ℚ) < (b.d : ℚ) := by exact_mod_cast b.dpos
  simp only [beq, decide_eq_true_eq, val]
  rw [div_eq_div_iff (ne_of_gt ha) (ne_of_gt hb)]
  constructor
  · intro h
    exact_mod_cast h
  · intro h
    exact_mod_cast h

theorem Frac.blt_false_iff (a b : Frac) : a.blt b = false ↔ b.val ≤ a.val := by
  rw [← Bool.not_eq_true, Frac.blt_iff]
  exact not_lt

theorem Frac.ble_false_iff (a b : Frac) : a.ble b = false ↔ b.val < a.val := by
  rw [← Bool.not_eq_true, Frac.ble_iff]
  exact not_le

theorem Frac.val_jsMin (a b : Frac) : (a.jsMin b).val = min a.val b.val := by
  by_cases h : a.ble b = true
  · rw [jsMin, if_pos h]
    exact (min_eq_left ((Frac.ble_iff a b).mp h)).symm
  · have h' := (Frac.ble_false_iff a b).mp (Bool.not_eq_true _ ▸ h)
    rw [jsMin, if_neg h]
    exact (min_eq_right (le_of_lt h')).symm

theorem Frac.val_foldl_add (l : List Frac) (acc : Frac) :
    (l.foldl Frac.add acc).val = acc.val + (l.map Frac.val).sum := by
  induction l generalizing acc with
  | nil => simp
  | cons x xs ih =>
    simp only [List.foldl_cons, List.map_cons, List.sum_cons, ih,
      Frac.val_add]
    ring

theorem Frac.val_lsum (l : List Frac) : (Frac.lsum l).val = (l.map Frac.val).sum := by
  rw [Frac.lsum, Frac.val_foldl_add, Frac.val_ofNat]
  simp

theorem Frac.lsum_nonneg (l : List Frac) (h : ∀ x ∈ l, 0 ≤ x.val) :
    0 ≤ (Frac.lsum l).val := by
  rw [Frac.val_lsum]
  refine List.sum_nonneg ?_
  intro q hq
  obtain ⟨x, hx, rfl⟩ := List.mem_map.mp hq
  exact h x hx

/-! ### Properties of string primitives -/

theorem listPrefix_refl (l : List Char) : listPrefix l l = true := by
  induction l with
  | nil => rfl
  | cons c cs ih => simp [listPrefix, ih]

theorem jsIncludes_refl (s : String) : jsIncludes s s = true := by
  rw [jsIncludes]
  cases h : s.data with
  | nil => rfl
  | cons c cs => rw [listContainsSub, ← h, listPrefix_refl]; rfl

/-! ### Association-list lookups -/

theorem alistLookup_mem {l : List (String × β)} {k : String} {v : β}
    (h : alistLookup l k = some v) : (k, v) ∈ l := by
  induction l with
  | nil => simp [alistLookup] at h
  | cons x xs ih =>
    rw [alistLookup] at h
    by_cases hx : (x.1 == k) = true
    · rw [if_pos hx] at h
      have hk := eq_of_beq hx
      apply List.mem_cons.mpr
      left
      rw [← hk, ← Option.some_inj.mp h]
    · rw [if_neg hx] at h
      exact List.mem_cons.mpr (Or.inr (ih h))

theorem alistLookup_of_mem_nodup {l : List (String × β)} {e : String × β}
    (hnd : (l.map Prod.fst).Nodup) (hmem : e ∈ l) :
    alistLookup l e.1 = some e.2 := by
  induction l with
  | nil => cases hmem
  | cons x xs ih =>
    rw [List.map_cons, List.nodup_cons] at hnd
    rcases List.mem_cons.mp hmem with rfl | hmem'
    · simp [alistLookup]
    · have hx : (x.1 == e.1) = false := by
        apply beq_eq_false_iff_ne.mpr
        intro heq
        apply hnd.1
        rw [heq]
        exact List.mem_map.mpr ⟨e, hmem', rfl⟩
      rw [alistLookup, if_neg (by simp [hx])]
      exact ih hnd.2 hmem'

/-! ### The strict-improvement fold -/

theorem bestFoldStrict_spec (l : List (α × Frac)) (init : α × Frac) :
    (bestFoldStrict init l = init ∧ ∀ x ∈ l, x.2.val ≤ init.2.val) ∨
    (∃ l1 l2, l = l1 ++ (bestFoldStrict init l) :: l2 ∧
      init.2.val < (bestFoldStrict init l).2.val ∧
      (∀ x ∈ l1, x.2.val < (bestFoldStrict init l).2.val) ∧
      (∀ x ∈ l2, x.2.val ≤ (bestFoldStrict init l).2.val)) := by
  induction l generalizing init with
  | nil => exact Or.inl ⟨rfl, by simp⟩
  | cons x xs ih =>
    have hstep : bestFoldStrict init (x :: xs) =
        bestFoldStrict (if init.2.blt x.2 then x else init) xs := by
      rw [bestFoldStrict, bestFoldStrict, List.foldl_cons]
    by_cases h : init.2.blt x.2 = true
    · have hlt := (Frac.blt_iff _ _).mp h
      rw [if_pos h] at hstep
      rcases ih x with ⟨heq, hall⟩ | ⟨l1, l2, hsplit, hinit, hl1, hl2⟩
      · refine Or.inr ⟨[], xs, ?_, ?_, by simp, ?_⟩
        · rw [hstep, heq]; rfl
        · rw [hstep, heq]; exact hlt
        · rw [hstep, heq]; exact hall
      · refine Or.inr ⟨x :: l1, l2, ?_, ?_, ?_, ?_⟩
        · rw [hstep, List.cons_append]
          exact congrArg (List.cons x) hsplit
        · rw [hstep]; exact lt_trans hlt hinit
        · rw [hstep]
          intro y hy
          rcases List.mem_cons.mp hy with rfl | hy'
          · exact hinit
          · exact hl1 y hy'
        · rw [hstep]; exact hl2
    · have hfalse : init.2.blt x.2 = false := Bool.not_eq_true _ ▸ h
      have hle := (Frac.blt_false_iff _ _).mp hfalse
      rw [if_neg h] at hstep
      rcases ih init with ⟨heq, hall⟩ | ⟨l1, l2, hsplit, hinit, hl1, hl2⟩
      · refine Or.inl ⟨by rw [hstep, heq], ?_⟩
        intro y hy
        rcases List.mem_cons.mp hy with rfl | hy'
        · exact hle
        · exact hall y hy'
      · refine Or.inr ⟨x :: l1, l2, ?_, ?_, ?_, ?_⟩
        · rw [hstep, List.cons_append]
          exact congrArg (List.cons x) hsplit
        · rw [hstep]; exact hinit
        · rw [hstep]
          intro y hy
          rcases List.mem_cons.mp hy with rfl | hy'
          · exact lt_of_le_of_lt hle hinit
          · exact hl1 y hy'
        · rw [hstep]; exact hl2

/-! ### The stable descending sort -/

theorem mem_insertDescBy (f : α → Frac) (x : α) (l : List α) (a : α) :
    a ∈ insertDescBy f x l ↔ a = x ∨ a ∈ l := by
  induction l with
  | nil => simp [insertDescBy]
  | cons y ys ih =>
    rw [insertDescBy]
    by_cases h : (f x).ble (f y) = true
    · rw [if_pos h]
      simp only [List.mem_cons, ih] <;> tauto
    · rw [if_neg h]
      simp only [List.mem_cons] <;> tauto

theorem sortedDesc_insertDescBy (f : α → Frac) (x : α) (l : List α)
    (h : l.Pairwise (fun a b => (f b).val ≤ (f a).val)) :
    (insertDescBy f x l).Pairwise (fun a b => (f b).val ≤ (f a).val) := by
  induction l with
  | nil =>
    rw [insertDescBy]
    exact List.pairwise_singleton _ _
  | cons y ys ih =>
    rw [List.pairwise_cons] at h
    rw [insertDescBy]
    by_cases hb : (f x).ble (f y) = true
    · rw [if_pos hb, List.pairwise_cons]
      constructor
      · intro z hz
        rcases (mem_insertDescBy f x ys z).mp hz with rfl | hz'
        · exact (Frac.ble_iff _ _).mp hb
        · exact h.1 z hz'
      · exact ih h.2
    · have hlt := (Frac.ble_false_iff _ _).mp (Bool.not_eq_true _ ▸ hb)
      rw [if_neg hb, List.pairwise_cons]
      constructor
      · intro z hz
        rcases List.mem_cons.mp hz with rfl | hz'
        · exact le_of_lt hlt
        · exact le_trans (h.1 z hz') (le_of_lt hlt)
      · rw [List.pairwise_cons]
        exact h

theorem mem_sortFold (f : α → Frac) (l acc : List α) (a : α) :
    a ∈ l.foldl (fun acc x => insertDescBy f x acc) acc ↔ a ∈ acc ∨ a ∈ l := by
  induction l generalizing acc with
  | nil => simp
  | cons x xs ih =>
    rw [List.foldl_cons, ih, mem_insertDescBy]
    simp only [List.mem_cons]
    tauto

theorem sorted_sortFold (f : α → Frac) (l acc : List α)
    (hacc : acc.Pairwise (fun a b => (f b).val ≤ (f a).val)) :
    (l.foldl (fun acc x => insertDescBy f x acc) acc).Pairwise
      (fun a b => (f b).val ≤ (f a).val) := by
  induction l generalizing acc with
  | nil => exact hacc
  | cons x xs ih =>
    rw [List.foldl_cons]
    exact ih _ (sortedDesc_insertDescBy f x acc hacc)

theorem mem_jsSortDescBy (f : α → Frac) (l : List α) (a : α) :
    a ∈ jsSortDescBy f l ↔ a ∈ l := by
  rw [jsSortDescBy, mem_sortFold]
  simp

theorem sorted_jsSortDescBy (f : α → Frac) (l : List α) :
    (jsSortDescBy f l).Pairwise (fun a b => (f b).val ≤ (f a).val) := by
  rw [jsSortDescBy]
  exact sorted_sortFold f l [] (List.Pairwise.nil)

theorem head_ge_of_sorted (f : α → Frac) (h : α) (t : List α)
    (hs : (h :: t).Pairwise (fun a b => (f b).val ≤ (f a).val)) :
    ∀ x ∈ h :: t, (f x).val ≤ (f h).val := by
  intro x hx
  rcases List.mem_cons.mp hx with rfl | hx'
  · exact le_refl _
  · exact (List.pairwise_cons.mp hs).1 x hx'

/-! ### Score components are nonnegative -/

theorem importantKeywords_nonneg :
    ∀ e ∈ importantKeywords, 0 ≤ e.2.val := by
  have hb : importantKeywords.all (fun e => (Frac.ofNat 0).ble e.2) = true := by
    decide
  intro e he
  have := (List.all_eq_true.mp hb) e he
  have hle := (Frac.ble_iff _ _).mp this
  rwa [Frac.val_ofNat, Nat.cast_zero] at hle

theorem commonWords_nonneg : ∀ e ∈ commonWords, 0 ≤ e.2.val := by
  have hb : commonWords.all (fun e => (Frac.ofNat 0).ble e.2) = true := by
    decide
  intro e he
  have := (List.all_eq_true.mp hb) e he
  have hle := (Frac.ble_iff _ _).mp this
  rwa [Frac.val_ofNat, Nat.cast_zero] at hle

/-- Each step of the exact word-match pass only increases the running total and
keyword count. -/
theorem wordMatchStep_mono (messageWords : List String) (acc : Frac × Nat)
    (w : String) :
    acc.1.val ≤ (wordMatchStep messageWords acc w).1.val ∧
      acc.2 ≤ (wordMatchStep messageWords acc w).2 := by
  rw [wordMatchStep]
  by_cases hc : messageWords.contains w = true
  · rw [if_pos hc]
    cases hik : alistLookup importantKeywords w with
    | some wt =>
      have hwt := importantKeywords_nonneg _ (alistLookup_mem hik)
      simp only [Frac.val_add]
      exact ⟨by linarith, Nat.le_succ _⟩
    | none =>
      cases hcw : alistLookup commonWords w with
      | some wt =>
        have hwt := commonWords_nonneg _ (alistLookup_mem hcw)
        simp only [Frac.val_add]
        exact ⟨by linarith, le_refl _⟩
      | none =>
        simp only [Frac.val_add, Frac.val_ofNat, Nat.cast_one]
        exact ⟨by linarith, Nat.le_succ _⟩
  · rw [if_neg hc]
    exact ⟨le_refl _, le_refl _⟩

theorem wordMatchFold_mono (messageWords : List String) (patternWords : List String)
    (base : Frac × Nat) :
    base.1.val ≤ (patternWords.foldl (wordMatchStep messageWords) base).1.val ∧
      base.2 ≤ (patternWords.foldl (wordMatchStep messageWords) base).2 := by
  induction patternWords generalizing base with
  | nil => exact ⟨le_refl _, le_refl _⟩
  | cons w ws ih =>
    rw [List.foldl_cons]
    have h1 := wordMatchStep_mono messageWords base w
    have h2 := ih (wordMatchStep messageWords base w)
    exact ⟨le_trans h1.1 h2.1, le_trans h1.2 h2.2⟩

theorem subMatchStep_nonneg (w mw : String) : 0 ≤ (subMatchStep w mw).val := by
  rw [subMatchStep]
  by_cases ht : subMatchTest mw w = true
  · rw [if_pos ht]
    cases hik : alistLookup importantKeywords w with
    | some wt =>
      have hwt := importantKeywords_nonneg _ (alistLookup_mem hik)
      rw [Frac.val_mul, Frac.val_frac _ _ (by decide)]
      positivity
    | none =>
      cases hcw : alistLookup commonWords w with
      | some wt => rw [Frac.val_ofNat]; exact_mod_cast Nat.zero_le 0
      | none =>
        rw [Frac.val_frac _ _ (by decide)]
        norm_num
  · rw [if_neg ht, Frac.val_ofNat]
    exact_mod_cast Nat.zero_le 0

theorem subMatchPass_nonneg (messageWords patternWords : List String) :
    0 ≤ (subMatchPass messageWords patternWords).val := by
  rw [subMatchPass]
  apply Frac.lsum_nonneg
  intro x hx
  obtain ⟨w, _, rfl⟩ := List.mem_map.mp hx
  rw [subMatchWordContrib]
  apply Frac.lsum_nonneg
  intro y hy
  obtain ⟨mw, _, rfl⟩ := List.mem_map.mp hy
  exact subMatchStep_nonneg w mw

theorem questionBonus_nonneg (messageLower : String) :
    0 ≤ (questionBonus messageLower).val := by
  rw [questionBonus]
  by_cases h : questionWords.any (fun w => jsIncludes messageLower w) = true
  · rw [if_pos h, Frac.val_frac _ _ (by decide)]
    norm_num
  · rw [if_neg h, Frac.val_ofNat]
    exact_mod_cast Nat.zero_le 0

/-- An exact substring match guarantees the `+3.0` bonus, a keyword count of at
least one, and hence a total score of at least 3. -/
theorem patternTotalKc_exact (messageLower pattern : String)
    (hex : jsIncludes messageLower (jsToLower pattern) = true) :
    3 ≤ (patternTotalKc messageLower pattern).1.val ∧
      1 ≤ (patternTotalKc messageLower pattern).2 := by
  rw [patternTotalKc]
  simp only [hex, if_pos]
  have hmono := wordMatchFold_mono (jsSplitWs messageLower)
    (jsSplitWs (jsToLower pattern)) (Frac.ofNat 3, 1)
  have h3 : (Frac.ofNat 3).val = 3 := by
    rw [Frac.val_ofNat]; norm_num
  constructor
  · have h1 := subMatchPass_nonneg (jsSplitWs messageLower)
      (jsSplitWs (jsToLower pattern))
    have h2 := questionBonus_nonneg messageLower
    simp only [Frac.val_add]
    rw [h3] at hmono
    linarith [hmono.1]
  · exact hmono.2

theorem mem_scoreEntries (messageLower : String) (ps : List String) (p : String)
    (hp : p ∈ ps) : ∀ n : Nat,
    ∃ i, patternEntry messageLower i p ∈ scoreEntries messageLower n ps := by
  induction ps with
  | nil => cases hp
  | cons q qs ih =>
    intro n
    rcases List.mem_cons.mp hp with rfl | hp'
    · refine ⟨n, ?_⟩
      rw [scoreEntries]
      exact List.mem_cons_self _ _
    · obtain ⟨i, hi⟩ := ih hp' (n + 1)
      refine ⟨i, ?_⟩
      rw [scoreEntries]
      exact List.mem_cons.mpr (Or.inr hi)

/-- Unfolding of `selectBestResponse` when the sorted score list is known. -/
theorem selectBestResponse_cons (m : String) (ps : List String) (t : Frac)
    (s0 : ScoreEntry) (rest : List ScoreEntry)
    (hsc : calculateResponseScore m ps = s0 :: rest) :
    selectBestResponse m ps t =
      if t.ble s0.score then
        some { pattern := s0.pattern, score := s0.score,
               confidence := (s0.score.divN 3).jsMin (Frac.ofNat 1),
               allScores := s0 :: rest }
      else none := by
  rw [selectBestResponse, hsc]

/-- If some candidate pattern's normalized score reaches the threshold, the
selector returns a result, and that result's score is at least the candidate's
score. -/
theorem selectBestResponse_spec (m : String) (ps : List String) (t : Frac)
    (p : String) (hp : p ∈ ps)
    (ht : t.val ≤ (patternNormScore (jsToLower m) p).val) :
    ∃ b, selectBestResponse m ps t = some b ∧
      (patternNormScore (jsToLower m) p).val ≤ b.score.val := by
  obtain ⟨i, hi⟩ := mem_scoreEntries (jsToLower m) ps p hp 0
  have hmem : patternEntry (jsToLower m) i p ∈ calculateResponseScore m ps := by
    rw [calculateResponseScore, mem_jsSortDescBy]
    exact hi
  cases hsc : calculateResponseScore m ps with
  | nil =>
    rw [hsc] at hmem
    cases hmem
  | cons s0 rest =>
    have hsorted := sorted_jsSortDescBy ScoreEntry.score
      (scoreEntries (jsToLower m) 0 ps)
    rw [show jsSortDescBy ScoreEntry.score (scoreEntries (jsToLower m) 0 ps) =
        calculateResponseScore m ps from rfl, hsc] at hsorted
    rw [hsc] at hmem
    have hge := head_ge_of_sorted ScoreEntry.score s0 rest hsorted _ hmem
    have hp_score : (ScoreEntry.score (patternEntry (jsToLower m) i p)).val =
        (patternNormScore (jsToLower m) p).val := rfl
    rw [hp_score] at hge
    have hts : t.ble s0.score = true :=
      (Frac.ble_iff _ _).mpr (le_trans ht hge)
    refine ⟨{ pattern := s0.pattern, score := s0.score,
              confidence := (s0.score.divN 3).jsMin (Frac.ofNat 1),
              allScores := s0 :: rest }, ?_, hge⟩
    rw [selectBestResponse_cons m ps t s0 rest hsc, hts]
    simp

/-- C1, counterexample: with message `"loan money"` and candidate patterns
`["loan", "loan money borrow"]`, the pattern `"loan"` is an exact
(case-insensitive) substring of the message with normalized score `3.2`, while
`"loan money borrow"` is not a substring; yet at threshold `3.2` (equal to the
exact pattern's score) the selector returns `"loan money borrow"`, whose
normalized score `3.4` is higher.  An exact-substring pattern is therefore not
preferred over every non-substring pattern. -/
theorem exactMatch_preference_counterexample :
    jsIncludes (jsToLower "loan money") (jsToLower "loan") = true ∧
    jsIncludes (jsToLower "loan money") (jsToLower "loan money borrow") = false ∧
    (patternNormScore (jsToLower "loan money") "loan").beq (frac 16 5) = true ∧
    (patternNormScore (jsToLower "loan money") "loan money borrow").beq
      (frac 17 5) = true ∧
    (selectBestResponse "loan money" ["loan", "loan money borrow"]
        (frac 16 5)).map (fun b => b.pattern) = some "loan money borrow" := by
  decide

/-- C1 (amended): if the message contains a candidate pattern `p` as an exact
(case-insensitive) substring, then `p`'s total score receives the `+3.0` bonus
(so it is at least 3), its keyword count is at least 1, its normalized score is
at least `3 / keywordCount`, and at any threshold not exceeding `p`'s
normalized score `selectBestResponse` returns a result whose normalized score
is at least `p`'s.  The returned pattern need not itself be an exact substring
of the message (see the counterexample). -/
theorem exactMatch_scoring_amended (m : String) (ps : List String) (p : String)
    (t : Frac) (hp : p ∈ ps)
    (hex : jsIncludes (jsToLower m) (jsToLower p) = true)
    (ht : t.val ≤ (patternNormScore (jsToLower m) p).val) :
    3 ≤ (patternTotalKc (jsToLower m) p).1.val ∧
    1 ≤ (patternTotalKc (jsToLower m) p).2 ∧
    3 / ((patternTotalKc (jsToLower m) p).2 : ℚ) ≤
      (patternNormScore (jsToLower m) p).val ∧
    ∃ b, selectBestResponse m ps t = some b ∧
      (patternNormScore (jsToLower m) p).val ≤ b.score.val := by
  obtain ⟨h3, h1⟩ := patternTotalKc_exact (jsToLower m) p hex
  have hkpos : 0 < (patternTotalKc (jsToLower m) p).2 := h1
  have hnorm : patternNormScore (jsToLower m) p =
      (patternTotalKc (jsToLower m) p).1.divN (patternTotalKc (jsToLower m) p).2 := by
    rw [patternNormScore]
    rw [if_pos hkpos]
  refine ⟨h3, h1, ?_, selectBestResponse_spec m ps t p hp ht⟩
  rw [hnorm, Frac.val_divN]
  have hkq : (0 : ℚ) < ((patternTotalKc (jsToLower m) p).2 : ℚ) := by
    exact_mod_cast hkpos
  exact (div_le_div_iff_of_pos_right hkq).mpr h3

/-- C1, witness for the amended theorem at message `"loan"`, patterns
`["loan"]`, threshold `0`. -/
theorem exactMatch_scoring_amended_witness :
    ∃ b, selectBestResponse "loan" ["loan"] (Frac.ofNat 0) = some b ∧
      (patternNormScore (jsToLower "loan") "loan").val ≤ b.score.val := by
  have ht : (Frac.ofNat 0).val ≤ (patternNormScore (jsToLower "loan") "loan").val :=
    (Frac.ble_iff _ _).mp (by decide)
  exact (exactMatch_scoring_amended "loan" ["loan"] "loan" (Frac.ofNat 0)
    (by decide) (by decide) ht).2.2.2

set_option maxRecDepth 20000 in
set_option maxHeartbeats 2000000 in
/-- C2, counterexample: for the empty message the claim fails.  JS splits the
empty string into the single empty word, and the empty word passes the
partial-match substring test against every pattern word, so patterns collect
positive partial scores with a keyword count of zero; at the caller's threshold
`0.3` the selector picks `"take another loan"` (score `2.8`) and
`generatePatternBasedResponse` answers with the reloan response, not the
generic fallback text. -/
theorem emptyMessage_counterexample :
    (selectBestResponse "" chatPatterns (frac 3 10)).map (fun b => b.pattern) =
      some "take another loan" ∧
    generatePatternBasedResponse "" = some respReloan ∧
    respReloan ≠ patternFallbackResponse := by
  decide

/-- C2 (amended): for the keyword-free message `"xyz"` (which shares no exact,
word, partial, or interrogative match with any pattern of the chat route's
table) every pattern scores `0`, so `selectBestResponse` returns `null` at
every threshold above zero and `generatePatternBasedResponse` produces the
system-level generic fallback text.  For the empty message this fails (see the
counterexample). -/
theorem keywordFree_no_response :
    (∀ t : Frac, 0 < t.val → selectBestResponse "xyz" chatPatterns t = none) ∧
    generatePatternBasedResponse "xyz" = some patternFallbackResponse := by
  have hall : (calculateResponseScore "xyz" chatPatterns).all
      (fun e => e.score.beq (Frac.ofNat 0)) = true := by decide
  have hmain : ∀ t : Frac, 0 < t.val →
      selectBestResponse "xyz" chatPatterns t = none := by
    intro t htpos
    cases hsc : calculateResponseScore "xyz" chatPatterns with
    | nil => rw [selectBestResponse, hsc]
    | cons s0 rest =>
      have h0 : s0.score.beq (Frac.ofNat 0) = true := by
        rw [hsc] at hall
        exact (List.all_eq_true.mp hall) s0 (List.mem_cons_self _ _)
      have hval : s0.score.val = 0 := by
        have hv := (Frac.beq_iff _ _).mp h0
        rwa [Frac.val_ofNat, Nat.cast_zero] at hv
      have hble : t.ble s0.score = false := by
        apply (Frac.ble_false_iff _ _).mpr
        rw [hval]
        exact htpos
      rw [selectBestResponse_cons _ _ t s0 rest hsc, hble]
      simp
  refine ⟨hmain, ?_⟩
  have h310 : (0 : ℚ) < (frac 3 10).val := by
    have h := (Frac.blt_iff (Frac.ofNat 0) (frac 3 10)).mp (by decide)
    rwa [Frac.val_ofNat, Nat.cast_zero] at h
  rw [generatePatternBasedResponse, hmain (frac 3 10) h310]

/-- C2, witness for the amended theorem at the caller's threshold `0.3`. -/
theorem keywordFree_no_response_witness :
    selectBestResponse "xyz" chatPatterns (frac 3 10) = none :=
  keywordFree_no_response.1 (frac 3 10) (by
    have h := (Frac.blt_iff (Frac.ofNat 0) (frac 3 10)).mp (by decide)
    rwa [Frac.val_ofNat, Nat.cast_zero] at h)

/-- C3: evaluation of `identifyConversationTopic` at the failing input — five
history messages `"loan"`, each classified as `loan_inquiry`, so the most
frequent category is `loan_inquiry` with count 5.  The code instead returns as
`primary` the final `Object.entries` pair `("technical", 0)`: the reduce on
line 577 indexes `topics` with an entry array (property key `"technical,0"`
etc.), every lookup is `undefined`, every `>` comparison is false, and the
reduce degenerates to "keep the last entry" — contradicting the code's own
comment `// Find the most discussed topic`. -/
theorem conversationTopic_primary_bug :
    identifyConversationTopic ["loan", "loan", "loan", "loan", "loan"] =
      .info ("technical", 0)
        [("loan_inquiry", 5), ("application", 0), ("documents", 0),
         ("repayment", 0), ("support", 0), ("technical", 0)]
        ((Frac.ofNat 5).divN 5) := by
  decide

/-- Splitting a mapped list splits the original list. -/
theorem map_split {f : α → β} : ∀ {l : List α} {m1 m2 : List β} {b : β},
    l.map f = m1 ++ b :: m2 →
    ∃ t1 a t2, l = t1 ++ a :: t2 ∧ f a = b ∧ t1.map f = m1 ∧ t2.map f = m2 := by
  intro l
  induction l with
  | nil =>
    intro m1 m2 b h
    cases m1 <;> simp at h
  | cons x xs ih =>
    intro m1 m2 b h
    cases m1 with
    | nil =>
      rw [List.map_cons, List.nil_append] at h
      injection h with h1 h2
      exact ⟨[], x, xs, rfl, h1, rfl, h2⟩
    | cons y m1' =>
      rw [List.map_cons, List.cons_append] at h
      injection h with h1 h2
      obtain ⟨t1, a, t2, hl, hfa, hm1, hm2⟩ := ih h2
      refine ⟨x :: t1, a, t2, by rw [List.cons_append, ← hl], hfa, ?_, hm2⟩
      rw [List.map_cons, hm1, h1]

theorem categoryScore_nonneg (ml : String) (d : CategoryData) :
    0 ≤ (categoryScore ml d).val := by
  rw [categoryScore, Frac.val_divN, Frac.val_ofNat]
  positivity

/-- C4: for every message (and any history), `analyzeSemanticContext` returns a
null category exactly when every category's confidence
(matched-keyword count / keyword-set size) is zero, in which case the context
is `"general inquiry"` and the confidence is zero; otherwise the returned
category is the table-earliest category of maximal confidence: strictly higher
than every earlier category's confidence and at least every later one's, and
the context string is that category's table entry. -/
theorem semanticCategory_argmax (message : String) (history : List String) :
    ((analyzeSemanticContext message history).category = none ↔
      ∀ e ∈ semanticCategories,
        (categoryScore (jsToLower message) e.2).val = 0) ∧
    ((analyzeSemanticContext message history).category = none →
      (analyzeSemanticContext message history).confidence.val = 0 ∧
      (analyzeSemanticContext message history).context = "general inquiry") ∧
    (∀ c, (analyzeSemanticContext message history).category = some c →
      ∃ t1 e t2, semanticCategories = t1 ++ e :: t2 ∧ e.1 = c ∧
        (analyzeSemanticContext message history).confidence.val =
          (categoryScore (jsToLower message) e.2).val ∧
        0 < (categoryScore (jsToLower message) e.2).val ∧
        (∀ x ∈ t1, (categoryScore (jsToLower message) x.2).val <
          (categoryScore (jsToLower message) e.2).val) ∧
        (∀ x ∈ t2, (categoryScore (jsToLower message) x.2).val ≤
          (categoryScore (jsToLower message) e.2).val) ∧
        (analyzeSemanticContext message history).context = e.2.context) := by
  have hcat : (analyzeSemanticContext message history).category =
      (bestFoldStrict ((none : Option String), Frac.ofNat 0)
        (semanticCategories.map (fun e =>
          (some e.1, categoryScore (jsToLower message) e.2)))).1 := rfl
  have hconf : (analyzeSemanticContext message history).confidence =
      (bestFoldStrict ((none : Option String), Frac.ofNat 0)
        (semanticCategories.map (fun e =>
          (some e.1, categoryScore (jsToLower message) e.2)))).2 := rfl
  set mapped := semanticCategories.map (fun e =>
    (some e.1, categoryScore (jsToLower message) e.2)) with hmapped
  set best := bestFoldStrict ((none : Option String), Frac.ofNat 0) mapped
    with hbest
  have hval0 : (Frac.ofNat 0).val = 0 := by
    rw [Frac.val_ofNat, Nat.cast_zero]
  rcases bestFoldStrict_spec mapped ((none : Option String), Frac.ofNat 0) with
    ⟨heq, hall⟩ | ⟨l1, l2, hsplit, hinit, hl1, hl2⟩
  · -- nothing beat the (null, 0) initial pair
    have hnone : (analyzeSemanticContext message history).category = none := by
      rw [hcat, hbest, heq]
    have hzero : ∀ e ∈ semanticCategories,
        (categoryScore (jsToLower message) e.2).val = 0 := by
      intro e he
      have hm : (some e.1, categoryScore (jsToLower message) e.2) ∈ mapped :=
        List.mem_map.mpr ⟨e, he, rfl⟩
      have h1 := hall _ hm
      rw [hval0] at h1
      exact le_antisymm h1 (categoryScore_nonneg _ _)
    refine ⟨⟨fun _ => hzero, fun _ => hnone⟩, fun _ => ?_, fun c hc => ?_⟩
    · constructor
      · rw [hconf, hbest, heq]
        exact hval0
      · rw [show (analyzeSemanticContext message history).context =
            (match best.1 with
             | some c =>
               match alistLookup semanticCategories c with
               | some d => d.context
               | none => "general inquiry"
             | none => "general inquiry") from rfl]
        rw [← hbest] at heq
        rw [heq]
    · rw [hnone] at hc
      cases hc
  · -- a category with positive confidence won
    rw [hval0] at hinit
    have hsplit' : semanticCategories.map (fun e =>
        (some e.1, categoryScore (jsToLower message) e.2)) = l1 ++ best :: l2 := by
      rw [← hmapped, hbest]
      exact hsplit
    obtain ⟨t1, e, t2, htbl, hfe, hm1, hm2⟩ := map_split hsplit'
    have hbest1 : best.1 = some e.1 := by rw [← hfe]
    have hbest2 : best.2 = categoryScore (jsToLower message) e.2 := by
      rw [← hfe]
    have hpos : 0 < (categoryScore (jsToLower message) e.2).val := by
      rw [← hbest2]; exact hinit
    have hsome : (analyzeSemanticContext message history).category = some e.1 := by
      rw [hcat, hbest1]
    refine ⟨⟨?_, ?_⟩, ?_, ?_⟩
    · intro h
      rw [hsome] at h
      cases h
    · intro hzero
      exact absurd (hzero e (htbl ▸ List.mem_append_right t1
        (List.mem_cons_self _ _))) (ne_of_gt hpos)
    · intro h
      rw [hsome] at h
      cases h
    · intro c hc
      rw [hsome] at hc
      have hce : e.1 = c := Option.some_inj.mp hc
      refine ⟨t1, e, t2, htbl, hce, ?_, hpos, ?_, ?_, ?_⟩
      · rw [hconf, hbest2]
      · intro x hx
        have hm : (some x.1, categoryScore (jsToLower message) x.2) ∈ l1 := by
          rw [← hm1]
          exact List.mem_map.mpr ⟨x, hx, rfl⟩
        have hlt := hl1 _ hm
        rw [← hbest, hbest2] at hlt
        exact hlt
      · intro x hx
        have hm : (some x.1, categoryScore (jsToLower message) x.2) ∈ l2 := by
          rw [← hm2]
          exact List.mem_map.mpr ⟨x, hx, rfl⟩
        have hle := hl2 _ hm
        rw [← hbest, hbest2] at hle
        exact hle
      · have hnd : (semanticCategories.map Prod.fst).Nodup := by decide
        have hmem : e ∈ semanticCategories :=
          htbl ▸ List.mem_append_right t1 (List.mem_cons_self _ _)
        have hlk := alistLookup_of_mem_nodup hnd hmem
        rw [show (analyzeSemanticContext message history).context =
            (match best.1 with
             | some c =>
               match alistLookup semanticCategories c with
               | some d => d.context
               | none => "general inquiry"
             | none => "general inquiry") from rfl]
        rw [hbest1]
        show (match alistLookup semanticCategories e.1 with
              | some d => d.context
              | none => "general inquiry") = e.2.context
        rw [hlk]

/-- C4, witness: on the keyword-free message `"zzz"` every category confidence
is zero, so the matcher reports the null category. -/
theorem semanticCategory_argmax_witness :
    (analyzeSemanticContext "zzz" []).category = none := by
  apply (semanticCategory_argmax "zzz" []).1.mpr
  have hb : semanticCategories.all
      (fun e => (categoryScore (jsToLower "zzz") e.2).beq (Frac.ofNat 0)) =
      true := by decide
  intro e he
  have h := (Frac.beq_iff _ _).mp ((List.all_eq_true.mp hb) e he)
  rwa [Frac.val_ofNat, Nat.cast_zero] at h

/-! ### Intent aggregation keys -/

theorem anyKeys (l : List (String × Frac)) (k : String) :
    l.any (fun e => e.1 == k) = (l.map Prod.fst).any (fun s => s == k) := by
  induction l with
  | nil => rfl
  | cons x xs ih => simp only [List.any_cons, List.map_cons, ih]

theorem map_fst_update (acc : List (String × Frac)) (k : String) (m : Frac) :
    (acc.map (fun e => if e.1 == k then (e.1, e.2.add m) else e)).map Prod.fst =
      acc.map Prod.fst := by
  induction acc with
  | nil => rfl
  | cons x xs ih =>
    simp only [List.map_cons, ih]
    by_cases h : (x.1 == k) = true
    · rw [if_pos h]
    · rw [if_neg h]

theorem map_fst_jsAddScore (acc : List (String × Frac)) (k : String) (m : Frac) :
    (jsAddScore acc k m).map Prod.fst =
      if acc.any (fun e => e.1 == k) then acc.map Prod.fst
      else acc.map Prod.fst ++ [k] := by
  rw [jsAddScore]
  by_cases h : acc.any (fun e => e.1 == k) = true
  · rw [if_pos h, if_pos h, map_fst_update]
  · rw [if_neg h, if_neg h, List.map_append]
    rfl

/-- The key list an aggregation produces does not depend on the measure. -/
theorem aggKeys_invariant (docs : List (String × String)) :
    ∀ (f g : String → Frac) (acc1 acc2 : List (String × Frac)),
      acc1.map Prod.fst = acc2.map Prod.fst →
      (docs.foldl (fun acc doc => jsAddScore acc doc.2 (f doc.1)) acc1).map
          Prod.fst =
        (docs.foldl (fun acc doc => jsAddScore acc doc.2 (g doc.1)) acc2).map
          Prod.fst := by
  induction docs with
  | nil =>
    intro f g a1 a2 h
    exact h
  | cons d ds ih =>
    intro f g a1 a2 h
    simp only [List.foldl_cons]
    apply ih
    rw [map_fst_jsAddScore, map_fst_jsAddScore, anyKeys, h, ← anyKeys]

/-- The aggregated intent keys are the eight intents of the training table, in
declaration order, whatever the TF-IDF measure reports. -/
theorem aggregateScores_keys (f : String → Frac) :
    (aggregateScores f initialService.tfidfDocs).map Prod.fst =
      ["loan_inquiry", "application_process", "eligibility", "repayment",
       "contact_support", "greeting", "gratitude", "farewell"] := by
  rw [aggregateScores,
    aggKeys_invariant initialService.tfidfDocs f (fun _ => Frac.ofNat 0) [] []
      rfl]
  decide

theorem mem_of_eq_append_cons {l l1 l2 : List γ} {r : γ}
    (h : l = l1 ++ r :: l2) : r ∈ l := by
  rw [h]
  exact List.mem_append_right l1 (List.mem_cons_self _ _)

theorem recognizeIntent_scores (measure : String → String → Frac)
    (svc : NLPService) (message : String) :
    (recognizeIntent measure svc message).scores =
      aggregateScores (measure (jsToLower message)) svc.tfidfDocs := rfl

theorem recognizeIntent_best (measure : String → String → Frac)
    (svc : NLPService) (message : String) :
    (recognizeIntent measure svc message).intent =
        (bestFoldStrict ("general_inquiry", Frac.ofNat 0)
          (aggregateScores (measure (jsToLower message)) svc.tfidfDocs)).1 ∧
      (recognizeIntent measure svc message).confidence =
        (bestFoldStrict ("general_inquiry", Frac.ofNat 0)
          (aggregateScores (measure (jsToLower message)) svc.tfidfDocs)).2 :=
  ⟨rfl, rfl⟩

/-- For any service state, `recognizeIntent`'s winner is the sentinel when no
aggregate is positive, and otherwise the first aggregate entry of maximal
score. -/
theorem recognizeIntent_argmax (measure : String → String → Frac)
    (svc : NLPService) (message : String) :
    ((∀ e ∈ (recognizeIntent measure svc message).scores, e.2.val ≤ 0) →
      (recognizeIntent measure svc message).intent = "general_inquiry" ∧
        (recognizeIntent measure svc message).confidence.val = 0) ∧
    (∀ e0 ∈ (recognizeIntent measure svc message).scores, 0 < e0.2.val →
      ∃ t1 e t2,
        (recognizeIntent measure svc message).scores = t1 ++ e :: t2 ∧
          (recognizeIntent measure svc message).intent = e.1 ∧
          (recognizeIntent measure svc message).confidence.val = e.2.val ∧
          0 < e.2.val ∧ (∀ x ∈ t1, x.2.val < e.2.val) ∧
          ∀ x ∈ t2, x.2.val ≤ e.2.val) := by
  have hscores := recognizeIntent_scores measure svc message
  have hintent := (recognizeIntent_best measure svc message).1
  have hconf := (recognizeIntent_best measure svc message).2
  have hval0 : (Frac.ofNat 0).val = 0 := by
    rw [Frac.val_ofNat, Nat.cast_zero]
  constructor
  · intro hall
    rw [hscores] at hall
    rcases bestFoldStrict_spec
        (aggregateScores (measure (jsToLower message)) svc.tfidfDocs)
        ("general_inquiry", Frac.ofNat 0) with
      ⟨heq, _⟩ | ⟨l1, l2, hsplit, hinit, _, _⟩
    · constructor
      · rw [hintent, heq]
      · rw [hconf, heq]
        exact hval0
    · exfalso
      have hmem : bestFoldStrict ("general_inquiry", Frac.ofNat 0)
          (aggregateScores (measure (jsToLower message)) svc.tfidfDocs) ∈
          aggregateScores (measure (jsToLower message)) svc.tfidfDocs :=
        mem_of_eq_append_cons hsplit
      have hle := hall _ hmem
      rw [hval0] at hinit
      exact absurd hle (not_le.mpr hinit)
  · intro e0 he0 hpos
    rw [hscores] at he0
    rcases bestFoldStrict_spec
        (aggregateScores (measure (jsToLower message)) svc.tfidfDocs)
        ("general_inquiry", Frac.ofNat 0) with
      ⟨_, hall⟩ | ⟨l1, l2, hsplit, hinit, hl1, hl2⟩
    · exfalso
      have hle := hall e0 he0
      rw [hval0] at hle
      exact absurd hpos (not_lt.mpr hle)
    · rw [hval0] at hinit
      refine ⟨l1, bestFoldStrict ("general_inquiry", Frac.ofNat 0)
        (aggregateScores (measure (jsToLower message)) svc.tfidfDocs), l2,
        ?_, hintent, by rw [hconf], hinit, hl1, hl2⟩
      rw [hscores]
      exact hsplit

/-- C5: for every message and every TF-IDF measure the `natural` library could
report, `recognizeIntent` over the fixed training table aggregates one score
per intent (keys in training-table order); when no intent's aggregate is
strictly positive it returns the sentinel `'general_inquiry'` with confidence
0, and otherwise it returns the first-declared intent of maximal aggregate
score (strictly above every earlier intent, at least every later one). -/
theorem recognizeIntent_sentinel (measure : String → String → Frac)
    (message : String) :
    (recognizeIntent measure initialService message).scores.map Prod.fst =
      ["loan_inquiry", "application_process", "eligibility", "repayment",
       "contact_support", "greeting", "gratitude", "farewell"] ∧
    ((∀ e ∈ (recognizeIntent measure initialService message).scores,
        e.2.val ≤ 0) →
      (recognizeIntent measure initialService message).intent =
          "general_inquiry" ∧
        (recognizeIntent measure initialService message).confidence.val = 0) ∧
    (∀ e0 ∈ (recognizeIntent measure initialService message).scores,
      0 < e0.2.val →
      ∃ t1 e t2,
        (recognizeIntent measure initialService message).scores =
            t1 ++ e :: t2 ∧
          (recognizeIntent measure initialService message).intent = e.1 ∧
          (recognizeIntent measure initialService message).confidence.val =
            e.2.val ∧
          0 < e.2.val ∧ (∀ x ∈ t1, x.2.val < e.2.val) ∧
          ∀ x ∈ t2, x.2.val ≤ e.2.val) := by
  refine ⟨?_, (recognizeIntent_argmax measure initialService message).1,
    (recognizeIntent_argmax measure initialService message).2⟩
  rw [recognizeIntent_scores measure initialService message]
  exact aggregateScores_keys _

/-- C5, witness: with the all-zero measure, no intent scores above zero and the
sentinel is returned. -/
theorem recognizeIntent_sentinel_witness :
    (recognizeIntent (fun _ _ => Frac.ofNat 0) initialService "hello").intent =
      "general_inquiry" := by
  refine ((recognizeIntent_sentinel (fun _ _ => Frac.ofNat 0) "hello").2.1
    ?_).1
  have hb : ((recognizeIntent (fun _ _ => Frac.ofNat 0) initialService
      "hello").scores).all (fun e => e.2.ble (Frac.ofNat 0)) = true := by
    decide
  intro e he
  have h := (Frac.ble_iff _ _).mp ((List.all_eq_true.mp hb) e he)
  rwa [Frac.val_ofNat, Nat.cast_zero] at h

/-- C6: `understandContext` is a pure function of the library environment, the
service state, the message and the history: the method writes no instance
field, so the state it returns is exactly the state it was given, and running
it twice on the same inputs (the second time on the state the first run left
behind) produces identical derived context values. -/
theorem understandContext_deterministic (env : LibEnv) (svc : NLPService)
    (message : String) (conversationHistory : List String) :
    (understandContext env svc message conversationHistory).2 = svc ∧
    (understandContext env
          ((understandContext env svc message conversationHistory).2) message
          conversationHistory).1 =
        (understandContext env svc message conversationHistory).1 :=
  ⟨rfl, rfl⟩

/-! ### The later-tie-break reduce of `determineUserStage` -/

/-- The fold of `jsReduceStageEntries`, for entries whose keys resolve to their
own values in `scores`, keeps the accumulator only on a strictly greater score,
so the final result is the last entry of maximal score. -/
theorem foldWeakLast_spec (scores : List (String × Nat))
    (hres : ∀ x ∈ scores, alistLookup scores x.1 = some x.2) :
    ∀ (es : List (String × Nat)) (e : String × Nat), e ∈ scores →
      (∀ x ∈ es, x ∈ scores) →
      ∃ l1 l2,
        e :: es = l1 ++
          (es.foldl (fun a b =>
            if natLookupGt (alistLookup scores a.1) (alistLookup scores b.1)
            then a else b) e) :: l2 ∧
        (∀ x ∈ l1, x.2 ≤
          (es.foldl (fun a b =>
            if natLookupGt (alistLookup scores a.1) (alistLookup scores b.1)
            then a else b) e).2) ∧
        (∀ x ∈ l2, x.2 <
          (es.foldl (fun a b =>
            if natLookupGt (alistLookup scores a.1) (alistLookup scores b.1)
            then a else b) e).2) := by
  intro es
  induction es with
  | nil =>
    intro e _ _
    exact ⟨[], [], rfl, by simp, by simp⟩
  | cons b bs ih =>
    intro e he hmem
    have hb : b ∈ scores := hmem b (List.mem_cons_self _ _)
    have hbs : ∀ x ∈ bs, x ∈ scores := fun x hx =>
      hmem x (List.mem_cons.mpr (Or.inr hx))
    have hstepval :
        (if natLookupGt (alistLookup scores e.1) (alistLookup scores b.1)
          then e else b) = if b.2 < e.2 then e else b := by
      rw [hres e he, hres b hb]
      rw [show natLookupGt (some e.2) (some b.2) = decide (b.2 < e.2) from rfl]
      by_cases hlt : b.2 < e.2
      · rw [if_pos (decide_eq_true hlt), if_pos hlt]
      · rw [if_neg (by simpa using hlt), if_neg hlt]
    rw [List.foldl_cons, hstepval]
    by_cases hlt : b.2 < e.2
    · rw [if_pos hlt]
      obtain ⟨l1, l2, hsplit, h1, h2⟩ := ih e he hbs
      cases l1 with
      | nil =>
        rw [List.nil_append] at hsplit
        injection hsplit with hr hbs'
        refine ⟨[], b :: bs, ?_, by simp, ?_⟩
        · rw [List.nil_append, ← hr]
        · intro x hx
          rcases List.mem_cons.mp hx with rfl | hx'
          · rw [← hr]
            exact hlt
          · rw [hbs'] at hx'
            exact h2 x hx'
      | cons w l1' =>
        rw [List.cons_append] at hsplit
        injection hsplit with hw hbs'
        have hwle := h1 w (List.mem_cons_self w l1')
        have hele : e.2 ≤ (bs.foldl (fun a b =>
            if natLookupGt (alistLookup scores a.1)
              (alistLookup scores b.1) then a else b) e).2 :=
          le_trans (le_of_eq (congrArg Prod.snd hw)) hwle
        refine ⟨e :: b :: l1', l2, ?_, ?_, h2⟩
        · rw [List.cons_append, List.cons_append, ← hbs']
        · intro x hx
          rcases List.mem_cons.mp hx with rfl | hx'
          · exact hele
          · rcases List.mem_cons.mp hx' with rfl | hx''
            · exact le_trans (le_of_lt hlt) hele
            · exact h1 x (List.mem_cons.mpr (Or.inr hx''))
    · rw [if_neg hlt]
      obtain ⟨l1, l2, hsplit, h1, h2⟩ := ih b hb hbs
      have hele : e.2 ≤ b.2 := Nat.le_of_not_lt hlt
      have hble : b.2 ≤ (bs.foldl (fun a b =>
          if natLookupGt (alistLookup scores a.1) (alistLookup scores b.1)
          then a else b) b).2 := by
        cases l1 with
        | nil =>
          rw [List.nil_append] at hsplit
          injection hsplit with hr _
          exact le_of_eq (congrArg Prod.snd hr)
        | cons w l1' =>
          rw [List.cons_append] at hsplit
          injection hsplit with hw _
          exact le_trans (le_of_eq (congrArg Prod.snd hw))
            (h1 w (List.mem_cons_self w l1'))
      refine ⟨e :: l1, l2, ?_, ?_, h2⟩
      · rw [List.cons_append, ← hsplit]
      · intro x hx
        rcases List.mem_cons.mp hx with rfl | hx'
        · exact le_trans hele hble
        · exact h1 x hx'

/-- `jsReduceStageEntries` on a nonempty entries list with distinct keys picks
the last entry of maximal score. -/
theorem jsReduceStageEntries_spec (scores : List (String × Nat))
    (hnd : (scores.map Prod.fst).Nodup) (hne : scores ≠ []) :
    ∃ l1 l2, scores = l1 ++ (jsReduceStageEntries scores) :: l2 ∧
      (∀ x ∈ l1, x.2 ≤ (jsReduceStageEntries scores).2) ∧
      (∀ x ∈ l2, x.2 < (jsReduceStageEntries scores).2) := by
  obtain ⟨e, es, rfl⟩ : ∃ e es, scores = e :: es := by
    cases scores with
    | nil => exact absurd rfl hne
    | cons e es => exact ⟨e, es, rfl⟩
  have hres : ∀ x ∈ e :: es, alistLookup (e :: es) x.1 = some x.2 := fun x hx =>
    alistLookup_of_mem_nodup hnd hx
  obtain ⟨l1, l2, hsplit, h1, h2⟩ := foldWeakLast_spec (e :: es) hres es e
    (List.mem_cons_self _ _) (fun x hx => List.mem_cons.mpr (Or.inr hx))
  have hred : jsReduceStageEntries (e :: es) =
      es.foldl (fun a b =>
        if natLookupGt (alistLookup (e :: es) a.1) (alistLookup (e :: es) b.1)
        then a else b) e := rfl
  rw [hred]
  exact ⟨l1, l2, hsplit, h1, h2⟩

/-- C7, counterexample: for the single-message history `"hello loan"`, the
`awareness` and `interest` stages tie at score 1 (the other four stages score
0), and `determineUserStage` returns the later stage `interest`, not the
earlier `awareness` the claim requires. -/
theorem userStage_tie_counterexample :
    determineUserStage ["hello loan"] journeyStages = "interest" ∧
    stageScoresList ["hello loan"] journeyStages =
      [("awareness", 1), ("interest", 1), ("consideration", 0),
       ("application", 0), ("post_application", 0), ("support", 0)] := by
  decide

/-- C7 (amended): for every conversation history, the derived user journey
stage is a stage of maximal total keyword-occurrence count over the last 3
messages, with ties broken in favour of the stage iterated LATER in the fixed
per-stage table: every stage listed before the winner scores at most as much,
and every stage listed after it scores strictly less. -/
theorem userStage_argmax (conversationHistory : List String) :
    ∃ l1 l2,
      stageScoresList conversationHistory journeyStages = l1 ++
        (jsReduceStageEntries
          (stageScoresList conversationHistory journeyStages)) :: l2 ∧
      determineUserStage conversationHistory journeyStages =
        (jsReduceStageEntries
          (stageScoresList conversationHistory journeyStages)).1 ∧
      (∀ x ∈ l1, x.2 ≤
        (jsReduceStageEntries
          (stageScoresList conversationHistory journeyStages)).2) ∧
      (∀ x ∈ l2, x.2 <
        (jsReduceStageEntries
          (stageScoresList conversationHistory journeyStages)).2) := by
  have hkeys : (stageScoresList conversationHistory journeyStages).map
      Prod.fst = journeyStages.map Prod.fst := by
    rw [stageScoresList, List.map_map]
    rfl
  have hnd : ((stageScoresList conversationHistory journeyStages).map
      Prod.fst).Nodup := by
    rw [hkeys]
    decide
  have hne : stageScoresList conversationHistory journeyStages ≠ [] := by
    intro h
    have := congrArg List.length h
    rw [stageScoresList, List.length_map] at this
    simp [journeyStages] at this
  obtain ⟨l1, l2, hsplit, h1, h2⟩ :=
    jsReduceStageEntries_spec _ hnd hne
  exact ⟨l1, l2, hsplit, rfl, h1, h2⟩

/-! ### Sentiment formula -/

/-- C8: the fallback sentiment score is
`(positiveHits − negativeHits) / (positiveHits + negativeHits)` when there is
at least one hit and `0` when there is none; in particular
`"thank you so much, this is great"` scores strictly above zero and
`"this is terrible and useless"` strictly below. -/
theorem fallbackSentiment_formula (message : String) :
    ((fallbackSentimentAnalysis message).positive.val +
        (fallbackSentimentAnalysis message).negative.val = 0 →
      (fallbackSentimentAnalysis message).score.val = 0) ∧
    (0 < (fallbackSentimentAnalysis message).positive.val +
        (fallbackSentimentAnalysis message).negative.val →
      (fallbackSentimentAnalysis message).score.val =
        ((fallbackSentimentAnalysis message).positive.val -
            (fallbackSentimentAnalysis message).negative.val) /
          ((fallbackSentimentAnalysis message).positive.val +
            (fallbackSentimentAnalysis message).negative.val)) ∧
    0 < (fallbackSentimentAnalysis
        "thank you so much, this is great").score.val ∧
    (fallbackSentimentAnalysis "this is terrible and useless").score.val < 0 := by
  have hpos : (fallbackSentimentAnalysis message).positive =
      Frac.ofNat (positiveWords.countP
        (fun w => jsIncludes (jsToLower message) w)) := rfl
  have hneg : (fallbackSentimentAnalysis message).negative =
      Frac.ofNat (negativeWords.countP
        (fun w => jsIncludes (jsToLower message) w)) := rfl
  set p := positiveWords.countP (fun w => jsIncludes (jsToLower message) w)
    with hp
  set n := negativeWords.countP (fun w => jsIncludes (jsToLower message) w)
    with hn
  have hscore : (fallbackSentimentAnalysis message).score =
      (if p + n > 0 then frac ((p : Int) - (n : Int)) (p + n)
       else Frac.ofNat 0) := rfl
  refine ⟨?_, ?_, ?_, ?_⟩
  · intro h0
    rw [hpos, hneg, Frac.val_ofNat, Frac.val_ofNat] at h0
    have hpn : p + n = 0 := by exact_mod_cast h0
    rw [hscore, if_neg (by rw [hpn]; exact lt_irrefl 0), Frac.val_ofNat,
      Nat.cast_zero]
  · intro hgt
    rw [hpos, hneg, Frac.val_ofNat, Frac.val_ofNat] at hgt ⊢
    have hpn : 0 < p + n := by exact_mod_cast hgt
    rw [hscore, if_pos hpn, Frac.val_frac _ _ hpn]
    push_cast
    ring_nf
  · have hb := (Frac.blt_iff (Frac.ofNat 0)
      (fallbackSentimentAnalysis "thank you so much, this is great").score).mp
      (by decide)
    rwa [Frac.val_ofNat, Nat.cast_zero] at hb
  · have hb := (Frac.blt_iff
      (fallbackSentimentAnalysis "this is terrible and useless").score
      (Frac.ofNat 0)).mp (by decide)
    rwa [Frac.val_ofNat, Nat.cast_zero] at hb

/-- C8, witness: the hit-free message `"xyz"` has sentiment score zero. -/
theorem fallbackSentiment_formula_witness :
    (fallbackSentimentAnalysis "xyz").score.val = 0 := by
  apply (fallbackSentiment_formula "xyz").1
  have hp : (fallbackSentimentAnalysis "xyz").positive = Frac.ofNat 0 := by
    decide
  have hn : (fallbackSentimentAnalysis "xyz").negative = Frac.ofNat 0 := by
    decide
  rw [hp, hn, Frac.val_ofNat, Nat.cast_zero, add_zero]

/-! ### Entity extraction isolation -/

/-- C9: `extractEntities` always returns all six entity containers (it is a
total function into the `Entities` record), and a throw inside any one of the
four library-backed sub-extractions only empties that sub-extraction's
container: all other fields are exactly what they are when the sub-extraction
succeeds. -/
theorem extractEntities_isolated (env : LibEnv) (message err : String) :
    (extractEntities { env with valuesResult := fun _ => .error err } message =
      { extractEntities env message with amounts := [] }) ∧
    (extractEntities { env with datesFn := some fun _ => .error err } message =
      { extractEntities env message with dates := [] }) ∧
    (extractEntities { env with orgsFn := some fun _ => .error err } message =
      { extractEntities env message with organizations := [] }) ∧
    (extractEntities { env with placesFn := some fun _ => .error err } message =
      { extractEntities env message with locations := [] }) := by
  obtain ⟨tm, ok, vr, df, og, pf, sf, kf⟩ := env
  by_cases h : ok message = true <;>
    refine ⟨?_, ?_, ?_, ?_⟩ <;>
      simp [extractEntities, h]

/-! ### Double counting of exactly matched keywords -/

theorem Frac.val_lsum_cons (x : Frac) (xs : List Frac) :
    (Frac.lsum (x :: xs)).val = x.val + (Frac.lsum xs).val := by
  rw [Frac.val_lsum, Frac.val_lsum, List.map_cons, List.sum_cons]

theorem Frac.val_lsum_ite (p : String → Bool) (c : Frac) (l : List String) :
    (Frac.lsum (l.map (fun mw => if p mw then c else Frac.ofNat 0))).val =
      (l.countP p : ℚ) * c.val := by
  induction l with
  | nil =>
    rw [List.map_nil, Frac.val_lsum, List.map_nil, List.sum_nil]
    simp
  | cons x xs ih =>
    rw [List.map_cons, Frac.val_lsum_cons, ih, List.countP_cons]
    by_cases hx : p x = true
    · rw [if_pos hx, if_pos hx]
      push_cast
      ring
    · rw [if_neg hx, if_neg hx, Frac.val_ofNat]
      push_cast
      ring

/-- Each step of the exact word-match pass adds the same delta whatever the
accumulator. -/
theorem wordMatchStep_add (messageWords : List String) (acc : Frac × Nat)
    (w : String) :
    (wordMatchStep messageWords acc w).1.val =
      acc.1.val + (wordMatchStep messageWords (Frac.ofNat 0, 0) w).1.val := by
  rw [wordMatchStep, wordMatchStep]
  by_cases hc : messageWords.contains w = true
  · rw [if_pos hc, if_pos hc]
    cases alistLookup importantKeywords w with
    | some wt =>
      simp only [Frac.val_add, Frac.val_ofNat]
      push_cast
      ring
    | none =>
      cases alistLookup commonWords w with
      | some wt =>
        simp only [Frac.val_add, Frac.val_ofNat]
        push_cast
        ring
      | none =>
        simp only [Frac.val_add, Frac.val_ofNat]
        push_cast
        ring
  · rw [if_neg hc, if_neg hc]
    simp only [Frac.val_ofNat]
    push_cast
    ring

/-- The exact word-match pass decomposes into per-word contributions. -/
theorem wordMatchFold_decomp (messageWords : List String) :
    ∀ (patternWords : List String) (base : Frac × Nat),
      (patternWords.foldl (wordMatchStep messageWords) base).1.val =
        base.1.val + ((patternWords.map (fun u =>
          (wordMatchStep messageWords (Frac.ofNat 0, 0) u).1.val)).sum) := by
  intro patternWords
  induction patternWords with
  | nil =>
    intro base
    simp
  | cons w ws ih =>
    intro base
    rw [List.foldl_cons, ih, List.map_cons, List.sum_cons,
      wordMatchStep_add messageWords base w]
    ring

theorem subMatchWordContrib_important (messageWords : List String) (w : String)
    (wt : Frac) (hw : alistLookup importantKeywords w = some wt) :
    (subMatchWordContrib messageWords w).val =
      (messageWords.countP (fun mw => subMatchTest mw w) : ℚ) *
        (wt.val * (7 / 10)) := by
  rw [subMatchWordContrib]
  have hstep : ∀ mw, subMatchStep w mw =
      if subMatchTest mw w then wt.mul (frac 7 10) else Frac.ofNat 0 := by
    intro mw
    by_cases ht : subMatchTest mw w = true
    · rw [subMatchStep, if_pos ht, hw, if_pos ht]
    · rw [subMatchStep, if_neg ht, if_neg ht]
  rw [List.map_congr_left (fun mw _ => hstep mw), Frac.val_lsum_ite,
    Frac.val_mul, Frac.val_frac 7 10 (by decide)]
  norm_num

/-- C10: a pattern word that occurs exactly as a whole word in the message and
is an important keyword fires both the exact word-match step (adding its full
table weight and counting it) and the partial-match pass (adding 70% of its
weight once per partially-matching message word, at least once since the word
matches itself); with exactly one partially-matching message word the combined
contribution is 1.7 times the table weight, and the word-match fold adds these
per-word contributions into the pattern's total score. -/
theorem important_word_double_count (messageWords : List String) (w : String)
    (wt : Frac) (hw : alistLookup importantKeywords w = some wt)
    (hmem : messageWords.contains w = true) :
    (wordMatchStep messageWords (Frac.ofNat 0, 0) w).1.val = wt.val ∧
    (wordMatchStep messageWords (Frac.ofNat 0, 0) w).2 = 1 ∧
    (subMatchWordContrib messageWords w).val =
      (messageWords.countP (fun mw => subMatchTest mw w) : ℚ) *
        (wt.val * (7 / 10)) ∧
    1 ≤ messageWords.countP (fun mw => subMatchTest mw w) ∧
    (messageWords.countP (fun mw => subMatchTest mw w) = 1 →
      (wordMatchStep messageWords (Frac.ofNat 0, 0) w).1.val +
        (subMatchWordContrib messageWords w).val = (17 / 10) * wt.val) ∧
    (∀ (base : Frac × Nat) (patternWords : List String),
      (patternWords.foldl (wordMatchStep messageWords) base).1.val =
        base.1.val + ((patternWords.map (fun u =>
          (wordMatchStep messageWords (Frac.ofNat 0, 0) u).1.val)).sum)) := by
  have hw1 : (wordMatchStep messageWords (Frac.ofNat 0, 0) w).1.val = wt.val := by
    rw [wordMatchStep, if_pos hmem, hw]
    simp only [Frac.val_add, Frac.val_ofNat]
    push_cast
    ring
  have hw2 : (wordMatchStep messageWords (Frac.ofNat 0, 0) w).2 = 1 := by
    rw [wordMatchStep, if_pos hmem, hw]
  have hcount : 1 ≤ messageWords.countP (fun mw => subMatchTest mw w) := by
    have hmw : w ∈ messageWords := by simpa using hmem
    refine Nat.succ_le_of_lt ?_
    refine List.countP_pos_iff.mpr ⟨w, hmw, ?_⟩
    simp [subMatchTest, jsIncludes_refl]
  refine ⟨hw1, hw2, subMatchWordContrib_important messageWords w wt hw,
    hcount, ?_, fun base pws => wordMatchFold_decomp messageWords pws base⟩
  intro hone
  rw [hw1, subMatchWordContrib_important messageWords w wt hw, hone]
  push_cast
  ring

/-- C10, witness: on the single-word message `["loan"]` the keyword `loan`
(weight 2.0) contributes `1.7 × 2.0 = 3.4` through the combined passes. -/
theorem important_word_double_count_witness :
    (wordMatchStep ["loan"] (Frac.ofNat 0, 0) "loan").1.val +
      (subMatchWordContrib ["loan"] "loan").val = (17 / 10) * (frac 2 1).val :=
  (important_word_double_count ["loan"] "loan" (frac 2 1) (by decide)
    (by decide)).2.2.2.2.1 (by decide)

